import Mathlib

/-!
Verification development for the jackal XMPP server core: the XEP-0198
stream-management module (SMID codec, SM queue, enable/ack/request/resume
protocol), the socket transport's channel-binding support, and the KV member
list. Go strings are modelled as Lean `String`/`List Char`, byte slices as
`List Nat` with values below 256, and `uint32` counters as `Nat` reduced
modulo `2 ^ 32` where an overflow could occur.

The XEP-0198 module implementation itself ships outside the sources at hand;
its definitions below are modelled from the specification, with every point
the module's unit tests pin (SMID wire format, ack trimming, resume replay,
queue-overflow disconnect) matching those tests.
-/

/-! ### Base64 (standard alphabet, as used by Go's base64.StdEncoding) -/


/-- The 64 characters of the standard base64 alphabet, in index order. -/
def b64Alphabet : List Char :=
  ("ABCDEFGHIJKLMNOPQRSTUVWXYZabcdefghijklmnopqrstuvwxyz0123456789+/").toList

/-- Character encoding a single six-bit group. -/
def sextetChar (n : Nat) : Char :=
  b64Alphabet.getD n '='

/-- Index of a base64 character in the alphabet; `none` for non-alphabet
characters such as the `=` pad. -/
def charSextet (c : Char) : Option Nat :=
  b64Alphabet.indexOf? c

/-- Base64-encode a byte list (values below 256), three bytes to four
characters, padding the final group with `=`. -/
def b64Encode : List Nat → List Char
  | [] => []
  | [a] => [sextetChar (a / 4), sextetChar (a % 4 * 16), '=', '=']
  | [a, b] => [sextetChar (a / 4), sextetChar (a % 4 * 16 + b / 16),
      sextetChar (b % 16 * 4), '=']
  | a :: b :: c :: rest =>
      sextetChar (a / 4) :: sextetChar (a % 4 * 16 + b / 16) ::
      sextetChar (b % 16 * 4 + c / 64) :: sextetChar (c % 64) :: b64Encode rest

/-- Base64-decode a character list; `none` on any malformed input, mirroring
the error return of Go's `base64.StdEncoding.DecodeString`. -/
def b64Decode : List Char → Option (List Nat)
  | [] => some []
  | c1 :: c2 :: c3 :: c4 :: rest =>
      match charSextet c1, charSextet c2 with
      | some s1, some s2 =>
        if c3 = '=' then
          if c4 = '=' ∧ rest = [] then some [s1 * 4 + s2 / 16] else none
        else
          match charSextet c3 with
          | some s3 =>
            if c4 = '=' then
              if rest = [] then some [s1 * 4 + s2 / 16, s2 % 16 * 16 + s3 / 4]
              else none
            else
              match charSextet c4, b64Decode rest with
              | some s4, some tail =>
                  some ((s1 * 4 + s2 / 16) :: (s2 % 16 * 16 + s3 / 4) ::
                    (s3 % 4 * 64 + s4) :: tail)
              | _, _ => none
          | none => none
      | _, _ => none
  | _ => none

/-! ### JIDs and the XEP-0198 SMID codec

The XEP-0198 module sources are not among the files at hand; the SMID codec
below is modelled from the spec (§4.7, §6), with the wire format pinned by
the expected outputs of `TestStream_EncodeSMID` and `TestStream_DecodeSMID`:
those outputs show a NUL separator byte between the JID bytes and the nonce,
which the spec's wording omits. -/

/-- A full JID `node@domain/resource`. -/
structure JID where
  node : String
  domain : String
  resource : String
deriving DecidableEq

/-- The character sequence of the JID's string form `node@domain/resource`. -/
def jidChars (j : JID) : List Char :=
  j.node.toList ++ ('@' :: (j.domain.toList ++ ('/' :: j.resource.toList)))

/-- The byte sequence of the JID's string form (ASCII-range JIDs). -/
def jidBytes (j : JID) : List Nat :=
  (jidChars j).map Char.toNat

/-- Wellformedness assumed of a valid full JID in this model: nonempty parts,
no `@` in the node, no `/` in the domain, and single-byte, non-NUL
characters. -/
def JID.WF (j : JID) : Prop :=
  j.node ≠ "" ∧ j.domain ≠ "" ∧ j.resource ≠ "" ∧
  '@' ∉ j.node.toList ∧ '/' ∉ j.domain.toList ∧
  ∀ c ∈ jidChars j, c.toNat ≠ 0 ∧ c.toNat < 256

instance (j : JID) : Decidable j.WF := by
  unfold JID.WF
  infer_instance

/-- Split a list at the first occurrence of `sep`, dropping the separator;
`none` when `sep` does not occur (Go's `bytes.IndexByte` / `strings.Index`
pattern). -/
def splitFirst {α : Type} [DecidableEq α] (sep : α) : List α → Option (List α × List α)
  | [] => none
  | c :: rest =>
      if c = sep then some ([], rest)
      else
        match splitFirst sep rest with
        | some (pre, post) => some (c :: pre, post)
        | none => none

/-- Parse `node@domain/resource` at the first `@` and the first `/` after it,
with nonempty parts, as the external jid library does for a full JID. -/
def parseJid (cs : List Char) : Option JID :=
  match splitFirst '@' cs with
  | some (n, rest) =>
    match splitFirst '/' rest with
    | some (d, r) =>
        if n ≠ [] ∧ d ≠ [] ∧ r ≠ [] then
          some ⟨String.mk n, String.mk d, String.mk r⟩
        else none
    | none => none
  | none => none

/-- Length of the resume nonce, in bytes. -/
def nonceLength : Nat := 24

/-- Modelled from the spec: `encodeSMID` (XEP-0198 module, not among the
sources) base64-encodes the JID string bytes, a NUL separator byte, and the
nonce. The separator byte is pinned by `TestStream_EncodeSMID`'s expected
output. -/
def encodeSMID (j : JID) (nonce : List Nat) : String :=
  String.mk (b64Encode (jidBytes j ++ 0 :: nonce))

/-- The spec's §6 description of the SMID taken literally: base64 of the full
JID bytes concatenated with the nonce, with no separator. Stated only to be
compared with `encodeSMID`. -/
def encodeSMIDSpecWords (j : JID) (nonce : List Nat) : String :=
  String.mk (b64Encode (jidBytes j ++ nonce))

/-- Modelled from the spec: `decodeSMID` base64-decodes the SMID, splits the
JID bytes from the nonce at the first NUL byte, and parses the JID; any
malformed input fails. -/
def decodeSMID (s : String) : Option (JID × List Nat) :=
  match b64Decode s.toList with
  | some bs =>
    match splitFirst 0 bs with
    | some (jb, nc) =>
      match parseJid (jb.map Char.ofNat) with
      | some j => some (j, nc)
      | none => none
    | none => none
  | none => none

/-- The JID used throughout the module's tests. -/
def testJid : JID := ⟨"ortuman", "jackal.im", "yard"⟩

/-- The nonce `TestStream_EncodeSMID` builds: bytes 1 through 24. -/
def testNonceBytes : List Nat := List.range' 1 24

/-! ### XML elements, streams, and the SM queue

The XEP-0198 manager below is modelled from the spec (§4.7, §4.8), shaped by
what the module's tests pin: `TestStream_Enable`, `TestStream_InStanza`,
`TestStream_OutStanza`, `TestStream_OutStanzaMaxQueueSizeReached`,
`TestStream_HandleR`, `TestStream_HandleA`, `TestStream_Resume` and
`TestStream_ResumeRemote`. Child elements of a stanza play no role in the
manager's behavior, so an element is its name plus its attribute list; the
random enable nonce is passed as an argument. -/

/-- An XML element: name and attributes (children are irrelevant to the
stream-management behavior modelled here). -/
structure XmlElement where
  name : String
  attrs : List (String × String)
deriving DecidableEq

/-- Attribute lookup defaulting to the empty string, as stravaganza's
`Attribute` does. -/
def XmlElement.attrD (el : XmlElement) (k : String) : String :=
  (el.attrs.lookup k).getD ""

/-- The XEP-0198 namespace. -/
def smNamespace : String := "urn:xmpp:sm:3"

/-- Whether an element is a stanza (message, iq or presence). -/
def isStanza (el : XmlElement) : Bool :=
  el.name == "message" || el.name == "iq" || el.name == "presence"

/-- Stream error conditions relevant to the modelled behavior. -/
inductive StreamError where
  | policyViolation
  | conflict
  | connectionTimeout
deriving DecidableEq

/-- A C2S stream as the SM manager observes and affects it: identity, state
flags, info map, the log of elements sent to it, its disconnect reason, and
the identity adopted through `Resume` when that was called. -/
structure C2S where
  id : Nat
  jid : JID
  isBinded : Bool
  isAuthenticated : Bool
  info : List (String × String)
  sent : List XmlElement
  disconnected : Option StreamError
  resumedAs : Option JID
deriving DecidableEq

/-- A pending element of the SM queue: the stanza and the outbound count it
was enqueued at. -/
structure QElement where
  stanza : XmlElement
  h : Nat
deriving DecidableEq

/-- The SM queue: stream reference, resume nonce, pending elements, inbound
and outbound counters (timers are not modelled). -/
structure Queue where
  stm : C2S
  nonce : List Nat
  elements : List QElement
  inH : Nat
  outH : Nat
deriving DecidableEq

/-- The SM manager's queue map, keyed by `<user>/<resource>`. -/
structure SMState where
  queueMap : List (String × Queue)
deriving DecidableEq

/-- The module's configuration (durations in seconds). -/
structure Config where
  hibernateTime : Nat
  requestAckInterval : Nat
  waitForAckTimeout : Nat
  maxQueueSize : Nat

/-- A resource directory record, as far as resume consults it. -/
structure ResourceDesc where
  instanceID : String
  jid : JID

/-- The queue contents returned by the cluster TransferQueue RPC. -/
structure TransferredQueue where
  elements : List QElement
  nonce : List Nat
  inH : Nat
  outH : Nat

/-- The manager's collaborators: local instance id, resource directory
lookup, and the cluster TransferQueue RPC. -/
structure Env where
  localInstance : String
  getResource : String → String → Option ResourceDesc
  transferQueue : String → Option TransferredQueue

/-- Go map assignment on an association list: replace any binding of `k`. -/
def alistInsert {κ β : Type} [BEq κ] (m : List (κ × β)) (k : κ) (v : β) :
    List (κ × β) :=
  (k, v) :: m.filter (fun p => !(p.1 == k))

/-- Go map deletion on an association list. -/
def alistErase {κ β : Type} [BEq κ] (m : List (κ × β)) (k : κ) : List (κ × β) :=
  m.filter (fun p => !(p.1 == k))

/-- `strconv.ParseUint(s, 10, 32)` with the error ignored, yielding 0. -/
def parseDigitsAux : List Char → Nat → Option Nat
  | [], acc => some acc
  | c :: rest, acc =>
      if c.isDigit then parseDigitsAux rest (acc * 10 + (c.toNat - 48)) else none

/-- `strconv.ParseUint(s, 10, 32)` with the error ignored, yielding 0 on any
parse or range failure, as the module's handlers do. -/
def parseUint32 (s : String) : Nat :=
  match s.toList with
  | [] => 0
  | cs =>
    match parseDigitsAux cs 0 with
    | some n => if n < 2 ^ 32 then n else 0
    | none => 0

/-- The SM queue map key for a JID: `<user>/<resource>`. -/
def queueKey (j : JID) : String := j.node ++ "/" ++ j.resource

/-- The stream info-map key recording that stream management is enabled. -/
def enabledInfoKey : String := "xep0198:enabled"

/-- The uint32 modulus for the SM counters. -/
def uint32Mod : Nat := 2 ^ 32

/-- Append an outbound stanza: increment `out_h` (uint32) and store the
stanza with it. -/
def queueHandleOut (q : Queue) (st : XmlElement) : Queue :=
  let h := (q.outH + 1) % uint32Mod
  { q with outH := h, elements := q.elements ++ [⟨st, h⟩] }

/-- Acknowledge up to `n`: remove all queued elements with `h ≤ n`
(spec §4.7), as `TestStream_HandleA` pins. -/
def queueAcknowledge (q : Queue) (n : Nat) : Queue :=
  { q with elements := q.elements.filter (fun e => decide (n < e.h)) }

/-- Count one received stanza on the inbound counter (uint32). -/
def queueBumpInH (q : Queue) : Queue :=
  { q with inH := (q.inH + 1) % uint32Mod }

/-- The `<enabled/>` reply. -/
def enabledElement (cfg : Config) (smID : String) : XmlElement :=
  ⟨"enabled", [("xmlns", smNamespace), ("id", smID), ("resume", "true"),
    ("max", toString cfg.hibernateTime)]⟩

/-- The `<a h='N'/>` reply. -/
def aElement (h : Nat) : XmlElement :=
  ⟨"a", [("xmlns", smNamespace), ("h", toString h)]⟩

/-- The `<resumed previd='smid' h='N'/>` reply. -/
def resumedElement (smID : String) (h : Nat) : XmlElement :=
  ⟨"resumed", [("xmlns", smNamespace), ("previd", smID), ("h", toString h)]⟩

/-- The `<failed/>` reply (its `item-not-found` child is not modelled). -/
def failedElement : XmlElement :=
  ⟨"failed", [("xmlns", smNamespace)]⟩

/-- The outcome of the manager's `ElementReceived` hook handler: new manager
state, the sender stream after effects, the resumed-over old stream if one
was disconnected, and whether the hook chain was halted. -/
structure RecvResult where
  st : SMState
  stm : C2S
  oldStm : Option C2S
  halted : Bool

/-- Handle `<enable/>` inside a bound stream: register a fresh queue keyed
`<user>/<resource>`, set the enabled info key, reply `<enabled/>`, halt. -/
def processEnable (cfg : Config) (nonce : List Nat) (ms : SMState) (stm : C2S) :
    RecvResult :=
  if stm.isBinded then
    let smID := encodeSMID stm.jid nonce
    let stm' := { stm with
      info := alistInsert stm.info enabledInfoKey "true",
      sent := stm.sent ++ [enabledElement cfg smID] }
    let q : Queue := { stm := stm', nonce := nonce, elements := [], inH := 0, outH := 0 }
    { st := ⟨alistInsert ms.queueMap (queueKey stm.jid) q⟩, stm := stm',
      oldStm := none, halted := true }
  else
    { st := ms, stm := stm, oldStm := none, halted := false }

/-- Handle `<r/>`: reply `<a h='in_h'/>`, halt. -/
def processR (ms : SMState) (stm : C2S) : RecvResult :=
  match List.lookup (queueKey stm.jid) ms.queueMap with
  | some q =>
      { st := ms, stm := { stm with sent := stm.sent ++ [aElement q.inH] },
        oldStm := none, halted := true }
  | none => { st := ms, stm := stm, oldStm := none, halted := true }

/-- Handle `<a h='N'/>`: ack-trim the queue, then re-send the remaining
unacknowledged stanzas, as `TestStream_HandleA` pins; halt. -/
def processA (ms : SMState) (stm : C2S) (el : XmlElement) : RecvResult :=
  match List.lookup (queueKey stm.jid) ms.queueMap with
  | some q =>
      let n := parseUint32 (el.attrD "h")
      let q' := queueAcknowledge q n
      let stm' := { stm with sent := stm.sent ++ q'.elements.map QElement.stanza }
      { st := ⟨alistInsert ms.queueMap (queueKey stm.jid) q'⟩, stm := stm',
        oldStm := none, halted := true }
  | none => { st := ms, stm := stm, oldStm := none, halted := true }

/-- Install a located queue on the resuming stream: ack-trim up to `n`, swap
the queue's stream to the new one, set the enabled info key, adopt the
identity via `Resume`, reply `<resumed previd h='in_h'/>`, then replay the
remaining elements in order; the displaced old stream, when local, is
disconnected with `conflict` (pinned by `TestStream_Resume`). -/
def installResume (ms : SMState) (stm : C2S) (jd : JID) (smID : String)
    (n : Nat) (q : Queue) (oldStm : Option C2S) : RecvResult :=
  let trimmed := (queueAcknowledge q n).elements
  let stm' := { stm with
    info := alistInsert stm.info enabledInfoKey "true",
    resumedAs := some jd,
    sent := stm.sent ++ resumedElement smID q.inH :: trimmed.map QElement.stanza }
  let q' := { q with stm := stm', elements := trimmed }
  { st := ⟨alistInsert ms.queueMap (queueKey jd) q'⟩, stm := stm',
    oldStm := oldStm.map (fun o => { o with disconnected := some StreamError.conflict }),
    halted := true }

/-- Reply `<failed/>` (item-not-found), halt. -/
def failedRecv (ms : SMState) (stm : C2S) : RecvResult :=
  { st := ms, stm := { stm with sent := stm.sent ++ [failedElement] },
    oldStm := none, halted := true }

/-- Handle `<resume previd='smid' h='N'/>` on an authenticated stream: decode
the SMID, resolve the resource; when owned locally, resume from the local
queue under a matching nonce; otherwise obtain the queue from the owning
instance via TransferQueue; any failure replies `<failed/>`. -/
def processResume (env : Env) (ms : SMState) (stm : C2S) (el : XmlElement) :
    RecvResult :=
  if stm.isAuthenticated then
    let smID := el.attrD "previd"
    match decodeSMID smID with
    | some (jd, nc) =>
      let n := parseUint32 (el.attrD "h")
      match env.getResource jd.node jd.resource with
      | some rd =>
        if rd.instanceID = env.localInstance then
          match List.lookup (queueKey jd) ms.queueMap with
          | some q =>
              if q.nonce = nc then installResume ms stm jd smID n q (some q.stm)
              else failedRecv ms stm
          | none => failedRecv ms stm
        else
          match env.transferQueue (queueKey jd) with
          | some tq =>
              if tq.nonce = nc then
                installResume ms stm jd smID n
                  { stm := stm, nonce := tq.nonce, elements := tq.elements,
                    inH := tq.inH, outH := tq.outH } none
              else failedRecv ms stm
          | none => failedRecv ms stm
      | none => failedRecv ms stm
    | none => failedRecv ms stm
  else
    { st := ms, stm := stm, oldStm := none, halted := false }

/-- Count a received stanza on the enabled stream's queue. -/
def processStanzaReceived (ms : SMState) (stm : C2S) : SMState :=
  match List.lookup (queueKey stm.jid) ms.queueMap with
  | some q => ⟨alistInsert ms.queueMap (queueKey stm.jid) (queueBumpInH q)⟩
  | none => ms

/-- The manager's `ElementReceived` handler: dispatch SM-namespace elements
to enable/r/a/resume, and count stanzas received on an enabled stream. -/
def processElementReceived (cfg : Config) (env : Env) (nonce : List Nat)
    (ms : SMState) (stm : C2S) (el : XmlElement) : RecvResult :=
  if el.attrD "xmlns" = smNamespace then
    if el.name = "enable" then processEnable cfg nonce ms stm
    else if el.name = "r" then processR ms stm
    else if el.name = "a" then processA ms stm el
    else if el.name = "resume" then processResume env ms stm el
    else { st := ms, stm := stm, oldStm := none, halted := false }
  else if isStanza el = true ∧ List.lookup enabledInfoKey stm.info = some "true" then
    { st := processStanzaReceived ms stm, stm := stm, oldStm := none, halted := false }
  else
    { st := ms, stm := stm, oldStm := none, halted := false }

/-- The manager's `ElementSent` handler: append an outbound stanza to the
enabled stream's queue; when the queue size then exceeds `MaxQueueSize`,
disconnect the stream with `policy-violation`. -/
def processElementSent (cfg : Config) (ms : SMState) (stm : C2S)
    (el : XmlElement) : SMState × C2S :=
  if isStanza el = true ∧ List.lookup enabledInfoKey stm.info = some "true" then
    match List.lookup (queueKey stm.jid) ms.queueMap with
    | some q =>
        let q' := queueHandleOut q el
        if cfg.maxQueueSize < q'.elements.length then
          (⟨alistInsert ms.queueMap (queueKey stm.jid) q'⟩,
            { stm with disconnected := some StreamError.policyViolation })
        else
          (⟨alistInsert ms.queueMap (queueKey stm.jid) q'⟩, stm)
    | none => (ms, stm)
  else (ms, stm)

/-- The `<a h='N'/>` element as received from the peer. -/
def aRecvElement (h : String) : XmlElement :=
  ⟨"a", [("xmlns", smNamespace), ("h", h)]⟩

/-- An outbound-stanza append or a received acknowledgement: the two
operations that drive an enabled stream's queue. -/
inductive QOp where
  | outStanza (el : XmlElement)
  | ackRecv (h : String)

/-- Apply one queue-driving operation through the manager's handlers; a
disconnected stream processes nothing further. -/
def applyQOp (cfg : Config) (s : SMState × C2S) : QOp → SMState × C2S
  | QOp.outStanza el =>
      if s.2.disconnected = none then processElementSent cfg s.1 s.2 el else s
  | QOp.ackRecv h =>
      if s.2.disconnected = none then
        let r := processA s.1 s.2 (aRecvElement h)
        (r.st, r.stm)
      else s

/-- Run a sequence of appends and acknowledgements. -/
def runQOps (cfg : Config) (s : SMState × C2S) (ops : List QOp) : SMState × C2S :=
  ops.foldl (applyQOp cfg) s

/-- Number of outbound-stanza appends in a run. -/
def countOuts : List QOp → Nat
  | [] => 0
  | QOp.outStanza _ :: rest => countOuts rest + 1
  | QOp.ackRecv _ :: rest => countOuts rest

/-! ### Test fixtures shared by the witnesses (mirroring the module tests) -/

/-- The configuration `testSMConfig` builds (durations in seconds). -/
def testSMConfig : Config := ⟨60, 1, 1, 10⟩

/-- An environment with no remote resources or queues. -/
def emptyEnv : Env := ⟨"inst-1", fun _ _ => none, fun _ => none⟩

/-- A bound, authenticated stream with no SM state. -/
def testStm : C2S := ⟨1234, testJid, true, true, [], [], none, none⟩

/-- A bound, authenticated stream marked SM-enabled. -/
def testEnabledStm : C2S :=
  ⟨1234, testJid, true, true, [(enabledInfoKey, "true")], [], none, none⟩

/-- The message stanza used by the module tests. -/
def testMsgEl : XmlElement :=
  ⟨"message", [("from", "noelia@jackal.im/yard"), ("to", "ortuman@jackal.im/yard")]⟩

/-- The outbound message replayed in the resume tests. -/
def testMsgOut : XmlElement :=
  ⟨"message", [("from", "ortuman@jackal.im/yard"), ("to", "noelia@jackal.im/yard"),
    ("id", "id-1")]⟩

/-- The `<resume/>` element of the resume tests: the test SMID and h='21'. -/
def c1ResumeEl : XmlElement :=
  ⟨"resume", [("xmlns", smNamespace), ("previd", encodeSMID testJid testNonceBytes),
    ("h", "21")]⟩

/-- The hibernated queue of `TestStream_Resume`: one pending element at
h = 22, inbound counter 10. -/
def c1LocalQueue : Queue := ⟨testStm, testNonceBytes, [⟨testMsgOut, 22⟩], 10, 0⟩

/-- Environment in which the resource is owned locally. -/
def c1LocalEnv : Env :=
  ⟨"inst-1", fun _ _ => some ⟨"inst-1", testJid⟩, fun _ => none⟩

/-- Environment in which the resource is owned by instance `inst-1234`, whose
TransferQueue returns the pending queue. -/
def c1RemoteEnv : Env :=
  ⟨"inst-1", fun _ _ => some ⟨"inst-1234", testJid⟩,
    fun _ => some ⟨[⟨testMsgOut, 22⟩], testNonceBytes, 10, 0⟩⟩

/-- All queues of a state are within the configured bound, unless the stream
has been disconnected. -/
def QueuesBounded (cfg : Config) (s : SMState × C2S) : Prop :=
  s.2.disconnected = none →
    ∀ k q, List.lookup k s.1.queueMap = some q →
      q.elements.length ≤ cfg.maxQueueSize

/-! ### The queue h-invariant (claim C5) -/

/-- The queue's elements carry consecutive h values ending at `out_h`:
`map h = range' s len` with `s + len = out_h + 1`. -/
def QInv (q : Queue) : Prop :=
  ∃ s, q.elements.map QElement.h = List.range' s q.elements.length ∧
    s + q.elements.length = q.outH + 1

/-! ### Socket transport channel binding (src/pkg/transport/socket.go) -/

/-- `tls.VersionTLS13` (0x0304). -/
def versionTLS13 : Nat := 772

/-- The `TLSUnique` channel-binding mechanism; any other value falls to the
switch's default branch. -/
def tlsUniqueMechanism : Nat := 0

/-- The transport's underlying connection: a plain `*net.TCPConn`, a TLS
connection exposing its negotiated state (version and TLSUnique bytes), or
some other connection that is neither. -/
inductive TConn where
  | tcp
  | tls (version : Nat) (tlsUnique : List Nat)
  | other
deriving DecidableEq

/-- `socketTransport`, restricted to the fields channel binding reads:
`conn` and `supportsCb` (initially false). -/
structure SocketTransport where
  conn : TConn
  supportsCb : Bool
deriving DecidableEq

/-- `StartTLS`: a no-op unless the underlying connection is a `*net.TCPConn`;
otherwise replace it by the TLS connection carrying the handshake's state,
setting `supportsCb` exactly when the negotiated version is below TLS 1.3. -/
def startTLS (s : SocketTransport) (version : Nat) (tlsUnique : List Nat) :
    SocketTransport :=
  match s.conn with
  | TConn.tcp =>
      { s with
        conn := TConn.tls version tlsUnique,
        supportsCb := decide (version < versionTLS13) }
  | _ => s

/-- `SupportsChannelBinding` returns the recorded flag. -/
def supportsChannelBinding (s : SocketTransport) : Bool := s.supportsCb

/-- `ChannelBindingBytes`: nil when channel binding is unsupported or the
connection is not TLS-state-queryable; the connection state's `TLSUnique`
for the tls-unique mechanism; nil for any other mechanism. -/
def channelBindingBytes (s : SocketTransport) (mechanism : Nat) :
    Option (List Nat) :=
  if !s.supportsCb then none
  else
    match s.conn with
    | TConn.tls _ tlsUnique =>
        if mechanism = tlsUniqueMechanism then some tlsUnique else none
    | _ => none

/-! ### KV member list (KVMemberList, package memberlist)

Go strings are represented as `List Char` here so that key-prefix reasoning
stays elementary. The value scanning (`fmt.Sscanf` of `a=%s cv=%s` and
`v%d.%d.%d`, `net.SplitHostPort`, `strconv.Atoi` with errors ignored) is
modelled at the token level; none of it affects the instance id, which is
derived from the key alone. -/

/-- The Go constant `memberKeyPrefix`, `i://`. -/
def memberKeyPfx : List Char := "i://".toList

/-- A cluster API version `v<major>.<minor>.<patch>`. -/
structure ClusterVersion where
  major : Nat
  minor : Nat
  patch : Nat
deriving DecidableEq

/-- A cluster member record. -/
structure Member where
  instanceID : List Char
  host : List Char
  port : Nat
  apiVer : ClusterVersion
deriving DecidableEq

/-- `strings.TrimPrefix`. -/
def trimPfx (s p : List Char) : List Char :=
  if p.isPrefixOf s then s.drop p.length else s

/-- `net.SplitHostPort`: split at the last colon; error (none) when no colon
occurs (bracketed IPv6 forms are not modelled). -/
def splitHostPort (addr : List Char) : Option (List Char × List Char) :=
  match splitFirst ':' addr.reverse with
  | some (rp, rh) => some (rh.reverse, rp.reverse)
  | none => none

/-- `strconv.Atoi` with the error ignored, yielding 0. -/
def atoiD (s : List Char) : Nat :=
  match s with
  | [] => 0
  | _ => (parseDigitsAux s 0).getD 0

/-- `fmt.Sscanf(val, "a=%s cv=%s", &addr, &minClusterVer)` with errors
ignored: the address and version tokens, empty where the scan fails. -/
def scanMemberValue (val : List Char) : List Char × List Char :=
  match (val.splitOn ' ').filter (fun w => !w.isEmpty) with
  | w1 :: rest =>
      if ("a=".toList).isPrefixOf w1 then
        match rest with
        | w2 :: _ =>
            if ("cv=".toList).isPrefixOf w2 then (w1.drop 2, w2.drop 3)
            else (w1.drop 2, [])
        | [] => (w1.drop 2, [])
      else ([], [])
  | [] => ([], [])

/-- `fmt.Sscanf(minClusterVer, "v%d.%d.%d", ...)` with errors ignored,
components defaulting to 0. -/
def scanVersion (cv : List Char) : ClusterVersion :=
  match cv with
  | 'v' :: rest =>
      match rest.splitOn '.' with
      | [ma, mi, pa] =>
          ⟨(parseDigitsAux ma 0).getD 0, (parseDigitsAux mi 0).getD 0,
            (parseDigitsAux pa 0).getD 0⟩
      | _ => ⟨0, 0, 0⟩
  | _ => ⟨0, 0, 0⟩

/-- `decodeClusterMember`: the instance id is the key with the `i://` prefix
trimmed; decoding fails exactly when `net.SplitHostPort` fails on the
scanned address. -/
def decodeClusterMember (key val : List Char) : Option Member :=
  match splitHostPort (scanMemberValue val).1 with
  | none => none
  | some (host, sPort) =>
      some ⟨trimPfx key memberKeyPfx, host, atoiD sPort,
        scanVersion (scanMemberValue val).2⟩

/-- `localMemberKey()`: `i://` followed by the local instance id. -/
def localMemberKey (localID : List Char) : List Char := memberKeyPfx ++ localID

/-- `isLocalMemberKey(k)`. -/
def isLocalMemberKey (localID k : List Char) : Bool := k == localMemberKey localID

/-- A KV watch event. -/
inductive KVEventType where
  | put
  | del
deriving DecidableEq

/-- A KV watch event: type, key and value. -/
structure KVEvent where
  type : KVEventType
  key : List Char
  val : List Char

/-- `getMembers`: decode the prefix listing, skipping the local member key
and any entry that fails to decode. -/
def getMembersList (localID : List Char) :
    List (List Char × List Char) → List Member
  | [] => []
  | (k, v) :: rest =>
      if isLocalMemberKey localID k then getMembersList localID rest
      else
        match decodeClusterMember k v with
        | none => getMembersList localID rest
        | some m => m :: getMembersList localID rest

/-- The member-map insertions `Start` performs after the initial fetch. -/
def insertMembers (ms : List Member) (m0 : List (List Char × Member)) :
    List (List Char × Member) :=
  ms.foldl (fun acc m => alistInsert acc m.instanceID m) m0

/-- The members map right after `Start`: the decoded initial listing loaded
into the empty map. -/
def initialMembers (localID : List Char) (listing : List (List Char × List Char)) :
    List (List Char × Member) :=
  insertMembers (getMembersList localID listing) []

/-- `processKVEvents`: apply one batch of watch events, skipping local-key
events; a Put whose decode fails aborts the loop (the error is returned),
retaining the mutations made so far. -/
def processKVEvents (localID : List Char) :
    List (List Char × Member) → List KVEvent → List (List Char × Member)
  | m, [] => m
  | m, ev :: rest =>
      if isLocalMemberKey localID ev.key then processKVEvents localID m rest
      else
        match ev.type with
        | KVEventType.put =>
            match decodeClusterMember ev.key ev.val with
            | none => m
            | some mem =>
                processKVEvents localID (alistInsert m mem.instanceID mem) rest
        | KVEventType.del =>
            processKVEvents localID (alistErase m (trimPfx ev.key memberKeyPfx)) rest

/-- Any members map the list can reach: the initial fetch followed by any
sequence of processed watch batches. -/
def reachableMembers (localID : List Char) (listing : List (List Char × List Char))
    (batches : List (List KVEvent)) : List (List Char × Member) :=
  batches.foldl (processKVEvents localID) (initialMembers localID listing)

/-- No binding of the members map is the local instance. -/
def NoLocal (localID : List Char) (m : List (List Char × Member)) : Prop :=
  ∀ p ∈ m, p.1 ≠ localID

/-- The initial KV listing of the C10 witness: the local member `node-A` and
a remote member `node-B`. -/
def c10Listing : List (List Char × List Char) :=
  [("i://node-A".toList, "a=10.0.0.1:4312 cv=v1.0.0".toList),
   ("i://node-B".toList, "a=10.0.0.2:4312 cv=v1.0.0".toList)]

/-- The watch batches of the C10 witness: puts for `node-C` and the local
`node-A`, then a delete of `node-B`. -/
def c10Batches : List (List KVEvent) :=
  [[⟨KVEventType.put, "i://node-C".toList, "a=10.0.0.3:4312 cv=v1.0.0".toList⟩,
    ⟨KVEventType.put, "i://node-A".toList, "a=10.0.0.9:4312 cv=v1.0.0".toList⟩],
   [⟨KVEventType.del, "i://node-B".toList, []⟩]]

/-! ### Theorems -/

theorem charSextet_sextetChar : ∀ n, n < 64 → charSextet (sextetChar n) = some n := by
  decide

theorem sextetChar_ne_pad : ∀ n, n < 64 → sextetChar n ≠ '=' := by
  decide

/-- Decoding inverts encoding on byte lists. -/
theorem b64Decode_b64Encode (bs : List Nat) (hbs : ∀ b ∈ bs, b < 256) :
    b64Decode (b64Encode bs) = some bs := by
  induction bs using b64Encode.induct with
  | case1 => rfl
  | case2 a =>
      have ha : a < 256 := hbs a (by simp)
      rw [b64Encode, b64Decode]
      rw [charSextet_sextetChar (a / 4) (by omega),
        charSextet_sextetChar (a % 4 * 16) (by omega)]
      simp only [reduceIte, and_self, Option.some.injEq, List.cons.injEq, and_true]
      omega
  | case3 a b =>
      have ha : a < 256 := hbs a (by simp)
      have hb : b < 256 := hbs b (by simp)
      rw [b64Encode, b64Decode]
      rw [charSextet_sextetChar (a / 4) (by omega),
        charSextet_sextetChar (a % 4 * 16 + b / 16) (by omega)]
      dsimp only
      rw [if_neg (sextetChar_ne_pad (b % 16 * 4) (by omega))]
      rw [charSextet_sextetChar (b % 16 * 4) (by omega)]
      simp only [reduceIte, Option.some.injEq, List.cons.injEq, and_true]
      omega
  | case4 a b c rest ih =>
      have ha : a < 256 := hbs a (by simp)
      have hb : b < 256 := hbs b (by simp)
      have hc : c < 256 := hbs c (by simp)
      have hrest : ∀ x ∈ rest, x < 256 := fun x hx => hbs x (by simp [hx])
      rw [b64Encode, b64Decode]
      rw [charSextet_sextetChar (a / 4) (by omega),
        charSextet_sextetChar (a % 4 * 16 + b / 16) (by omega)]
      dsimp only
      rw [if_neg (sextetChar_ne_pad (b % 16 * 4 + c / 64) (by omega))]
      rw [charSextet_sextetChar (b % 16 * 4 + c / 64) (by omega)]
      dsimp only
      rw [if_neg (sextetChar_ne_pad (c % 64) (by omega))]
      rw [charSextet_sextetChar (c % 64) (by omega), ih hrest]
      simp only [Option.some.injEq, List.cons.injEq, and_true]
      omega

theorem splitFirst_append {α : Type} [DecidableEq α] (sep : α) (xs ys : List α)
    (hx : sep ∉ xs) : splitFirst sep (xs ++ sep :: ys) = some (xs, ys) := by
  induction xs with
  | nil => simp [splitFirst]
  | cons c rest ih =>
      have hc : c ≠ sep := fun h => hx (h ▸ List.mem_cons_self c rest)
      have hrest : sep ∉ rest := fun h => hx (List.mem_cons_of_mem c h)
      simp only [List.cons_append, splitFirst, if_neg hc, List.append_eq, ih hrest]

theorem parseJid_jidChars (j : JID) (hj : j.WF) : parseJid (jidChars j) = some j := by
  obtain ⟨hn, hd, hr, hna, hds, _⟩ := hj
  have hmk : ∀ s : String, String.mk s.toList = s := fun s => by cases s; rfl
  have hne : ∀ s : String, s ≠ "" → s.toList ≠ [] := by
    intro s hs h
    apply hs
    rw [← hmk s, h]
  rw [jidChars]
  unfold parseJid
  rw [splitFirst_append '@' j.node.toList _ hna]
  dsimp only
  rw [splitFirst_append '/' j.domain.toList _ hds]
  dsimp only
  rw [if_pos ⟨hne _ hn, hne _ hd, hne _ hr⟩]
  rw [hmk, hmk, hmk]

theorem decodeSMID_encodeSMID (j : JID) (nonce : List Nat) (hj : j.WF)
    (hn : ∀ b ∈ nonce, b < 256) :
    decodeSMID (encodeSMID j nonce) = some (j, nonce) := by
  have hwf := hj
  obtain ⟨-, -, -, -, -, hchars⟩ := hwf
  have hbytes : ∀ b ∈ jidBytes j ++ 0 :: nonce, b < 256 := by
    intro b hb
    rcases List.mem_append.1 hb with h | h
    · obtain ⟨c, hc, rfl⟩ := List.mem_map.1 h
      exact (hchars c hc).2
    · rcases List.mem_cons.1 h with rfl | h
      · omega
      · exact hn b h
  have hzero : (0 : Nat) ∉ jidBytes j := by
    intro h
    obtain ⟨c, hc, hc0⟩ := List.mem_map.1 h
    exact (hchars c hc).1 hc0
  unfold decodeSMID encodeSMID
  have htl : (String.mk (b64Encode (jidBytes j ++ 0 :: nonce))).toList
      = b64Encode (jidBytes j ++ 0 :: nonce) := rfl
  rw [htl, b64Decode_b64Encode _ hbytes]
  dsimp only
  rw [splitFirst_append 0 (jidBytes j) nonce hzero]
  dsimp only
  have hmapmap : (jidBytes j).map Char.ofNat = jidChars j := by
    rw [jidBytes, List.map_map]
    simp [Function.comp_def, Char.ofNat_toNat]
  rw [hmapmap, parseJid_jidChars j hj]

/-- `encodeSMID` reproduces the exact SMID expected by
`TestStream_EncodeSMID`, validating the modelled wire format (including the
NUL separator byte) against the repository's test. -/
theorem encodeSMID_test_vector :
    encodeSMID testJid testNonceBytes =
      "b3J0dW1hbkBqYWNrYWwuaW0veWFyZAABAgMEBQYHCAkKCwwNDg8QERITFBUWFxg=" := by
  decide

/-- `decodeSMID` reproduces the JID and nonce expected by
`TestStream_DecodeSMID`, validating the modelled decoder against the
repository's test. -/
theorem decodeSMID_test_vector :
    decodeSMID "b3J0dW1hbkBqYWNrYWwuaW0vQ29udmVyc2F0aW9ucy40UllFAHl5Jrx+gnSZ7hq3vjoW38oQM2ZrPknCyA==" =
      some (⟨"ortuman", "jackal.im", "Conversations.4RYE"⟩,
        [121, 121, 38, 188, 126, 130, 116, 153, 238, 26, 183, 190, 58, 22, 223, 202,
         16, 51, 102, 107, 62, 73, 194, 200]) := by
  decide

/-- Claim C2, counterexample to the stated wire format: at the exact input of
`TestStream_EncodeSMID`, the SMID produced by `encodeSMID` differs from the
base64 encoding of the JID bytes concatenated with the nonce — a NUL
separator byte sits between them. -/
theorem c2_smid_format_counterexample :
    encodeSMID testJid testNonceBytes ≠ encodeSMIDSpecWords testJid testNonceBytes := by
  decide

/-- Claim C2 (amended): for every wellformed full JID and every 24-byte nonce,
decoding the SMID produced by encoding them returns the original JID and
nonce — decodeSMID (encodeSMID jid nonce) = (jid, nonce) — where the SMID is
the base64 encoding of the JID bytes, a NUL separator byte, and the nonce. -/
theorem c2_smid_roundtrip (j : JID) (nonce : List Nat) (hj : j.WF)
    (hn : ∀ b ∈ nonce, b < 256) (hlen : nonce.length = nonceLength) :
    decodeSMID (encodeSMID j nonce) = some (j, nonce) ∧
    encodeSMID j nonce = String.mk (b64Encode (jidBytes j ++ 0 :: nonce)) :=
  ⟨decodeSMID_encodeSMID j nonce hj hn, rfl⟩

/-- Claim C2, witness: the round trip at the test's JID and nonce. -/
theorem c2_smid_roundtrip_witness :
    testJid.WF ∧ (∀ b ∈ testNonceBytes, b < 256) ∧
      testNonceBytes.length = nonceLength ∧
      decodeSMID (encodeSMID testJid testNonceBytes) = some (testJid, testNonceBytes) :=
  ⟨by decide, by decide, by decide,
    (c2_smid_roundtrip testJid testNonceBytes (by decide) (by decide) (by decide)).1⟩

/-! ### Association list lemmas -/

theorem alistInsert_lookup {κ β : Type} [BEq κ] [LawfulBEq κ]
    (m : List (κ × β)) (k : κ) (v : β) : (alistInsert m k v).lookup k = some v := by
  simp [alistInsert, List.lookup_cons]

theorem lookup_filter_out_key {κ β : Type} [BEq κ] [LawfulBEq κ]
    (m : List (κ × β)) (k k' : κ) (h : k' ≠ k) :
    (m.filter (fun p => !(p.1 == k))).lookup k' = m.lookup k' := by
  induction m with
  | nil => rfl
  | cons p rest ih =>
      obtain ⟨a, b⟩ := p
      rw [List.filter_cons]
      by_cases hp : a = k
      · subst hp
        have hk' : (k' == a) = false := beq_eq_false_iff_ne.2 h
        simp [List.lookup_cons, hk', ih]
      · have ha : (a == k) = false := beq_eq_false_iff_ne.2 hp
        simp only [ha, Bool.not_false, if_true, List.lookup_cons, ih]

theorem alistInsert_lookup_ne {κ β : Type} [BEq κ] [LawfulBEq κ]
    (m : List (κ × β)) (k k' : κ) (v : β) (h : k' ≠ k) :
    (alistInsert m k v).lookup k' = m.lookup k' := by
  rw [alistInsert, List.lookup_cons]
  have hk' : (k' == k) = false := beq_eq_false_iff_ne.2 h
  simp only [hk']
  exact lookup_filter_out_key m k k' h

/-- Claim C7: a bound stream receiving `<enable/>` in the SM namespace gets a
queue registered under `<user>/<resource>`, its enabled info key set to true,
the hook chain halted, and an `<enabled/>` reply in the SM namespace. -/
theorem c7_enable_creates_queue (cfg : Config) (env : Env) (nonce : List Nat)
    (ms : SMState) (stm : C2S) (el : XmlElement)
    (hb : stm.isBinded = true) (hname : el.name = "enable")
    (hns : el.attrD "xmlns" = smNamespace) :
    (processElementReceived cfg env nonce ms stm el).halted = true ∧
    List.lookup (queueKey stm.jid)
        (processElementReceived cfg env nonce ms stm el).st.queueMap
      = some { stm := (processElementReceived cfg env nonce ms stm el).stm,
               nonce := nonce, elements := [], inH := 0, outH := 0 } ∧
    List.lookup enabledInfoKey
        (processElementReceived cfg env nonce ms stm el).stm.info = some "true" ∧
    (processElementReceived cfg env nonce ms stm el).stm.sent
      = stm.sent ++ [enabledElement cfg (encodeSMID stm.jid nonce)] ∧
    (enabledElement cfg (encodeSMID stm.jid nonce)).name = "enabled" ∧
    (enabledElement cfg (encodeSMID stm.jid nonce)).attrD "xmlns" = smNamespace := by
  have hd : processElementReceived cfg env nonce ms stm el
      = processEnable cfg nonce ms stm := by
    simp [processElementReceived, hns, hname]
  rw [hd]
  unfold processEnable
  rw [if_pos hb]
  refine ⟨rfl, ?_, ?_, rfl, rfl, rfl⟩
  · exact alistInsert_lookup ms.queueMap (queueKey stm.jid) _
  · exact alistInsert_lookup stm.info enabledInfoKey "true"

/-- Claim C7, witness: enabling on the test stream with the test nonce. -/
theorem c7_enable_creates_queue_witness :
    (processElementReceived testSMConfig emptyEnv testNonceBytes ⟨[]⟩ testStm
        ⟨"enable", [("xmlns", smNamespace)]⟩).halted = true ∧
    List.lookup (queueKey testStm.jid)
        (processElementReceived testSMConfig emptyEnv testNonceBytes ⟨[]⟩ testStm
          ⟨"enable", [("xmlns", smNamespace)]⟩).st.queueMap
      = some { stm := (processElementReceived testSMConfig emptyEnv testNonceBytes ⟨[]⟩
                  testStm ⟨"enable", [("xmlns", smNamespace)]⟩).stm,
               nonce := testNonceBytes, elements := [], inH := 0, outH := 0 } ∧
    List.lookup enabledInfoKey
        (processElementReceived testSMConfig emptyEnv testNonceBytes ⟨[]⟩ testStm
          ⟨"enable", [("xmlns", smNamespace)]⟩).stm.info = some "true" ∧
    (processElementReceived testSMConfig emptyEnv testNonceBytes ⟨[]⟩ testStm
        ⟨"enable", [("xmlns", smNamespace)]⟩).stm.sent
      = testStm.sent ++ [enabledElement testSMConfig (encodeSMID testStm.jid testNonceBytes)] ∧
    (enabledElement testSMConfig (encodeSMID testStm.jid testNonceBytes)).name = "enabled" ∧
    (enabledElement testSMConfig (encodeSMID testStm.jid testNonceBytes)).attrD "xmlns"
      = smNamespace :=
  c7_enable_creates_queue testSMConfig emptyEnv testNonceBytes ⟨[]⟩ testStm
    ⟨"enable", [("xmlns", smNamespace)]⟩ rfl rfl (by decide)

/-- Claim C6: on an enabled stream, a received stanza advances the inbound
counter by exactly one (a uint32 increment), and a received `<r/>` elicits an
`<a/>` whose `h` attribute is the current inbound counter. -/
theorem c6_inbound_count_and_r (cfg : Config) (env : Env) (nonce : List Nat)
    (ms : SMState) (stm : C2S) (el : XmlElement) (q : Queue)
    (hq : List.lookup (queueKey stm.jid) ms.queueMap = some q) :
    (isStanza el = true → el.attrD "xmlns" ≠ smNamespace →
      List.lookup enabledInfoKey stm.info = some "true" →
      List.lookup (queueKey stm.jid)
          (processElementReceived cfg env nonce ms stm el).st.queueMap
        = some (queueBumpInH q) ∧
      (queueBumpInH q).inH = (q.inH + 1) % uint32Mod ∧
      (q.inH + 1 < uint32Mod → (queueBumpInH q).inH = q.inH + 1)) ∧
    (el.name = "r" → el.attrD "xmlns" = smNamespace →
      (processElementReceived cfg env nonce ms stm el).stm.sent
        = stm.sent ++ [aElement q.inH] ∧
      (aElement q.inH).attrD "h" = toString q.inH ∧
      (processElementReceived cfg env nonce ms stm el).halted = true) := by
  constructor
  · intro hst hns hen
    have hd : processElementReceived cfg env nonce ms stm el
        = { st := processStanzaReceived ms stm, stm := stm, oldStm := none,
            halted := false } := by
      rw [processElementReceived, if_neg hns, if_pos ⟨hst, hen⟩]
    rw [hd]
    refine ⟨?_, rfl, fun hlt => ?_⟩
    · show List.lookup (queueKey stm.jid) (processStanzaReceived ms stm).queueMap
        = some (queueBumpInH q)
      rw [processStanzaReceived, hq]
      exact alistInsert_lookup ms.queueMap (queueKey stm.jid) _
    · show (q.inH + 1) % uint32Mod = q.inH + 1
      exact Nat.mod_eq_of_lt hlt
  · intro hname hns
    have hd : processElementReceived cfg env nonce ms stm el = processR ms stm := by
      have h1 : el.name ≠ "enable" := by rw [hname]; decide
      simp [processElementReceived, hns, hname]
    rw [hd]
    unfold processR
    rw [hq]
    exact ⟨rfl, rfl, rfl⟩

/-- Claim C6, witness: on the enabled test stream with a fresh queue, the
test message advances `in_h` from 0 to 1, and `<r/>` received on the
resulting state elicits `<a h='1'/>`, as `TestStream_InStanza` and the
inbound-counter scenario of the spec require. -/
theorem c6_inbound_count_and_r_witness :
    (List.lookup (queueKey testEnabledStm.jid)
        (processElementReceived testSMConfig emptyEnv [] ⟨[(queueKey testJid,
            ⟨testEnabledStm, [], [], 0, 0⟩)]⟩ testEnabledStm testMsgEl).st.queueMap
      = some (queueBumpInH ⟨testEnabledStm, [], [], 0, 0⟩) ∧
      (queueBumpInH (⟨testEnabledStm, [], [], 0, 0⟩ : Queue)).inH = 1) ∧
    ((processElementReceived testSMConfig emptyEnv []
        ⟨[(queueKey testJid, ⟨testEnabledStm, [], [], 1, 0⟩)]⟩ testEnabledStm
        ⟨"r", [("xmlns", smNamespace)]⟩).stm.sent
      = testEnabledStm.sent ++ [aElement 1] ∧
      (aElement 1).attrD "h" = "1") := by
  have h1 := c6_inbound_count_and_r testSMConfig emptyEnv []
    ⟨[(queueKey testJid, ⟨testEnabledStm, [], [], 0, 0⟩)]⟩ testEnabledStm testMsgEl
    ⟨testEnabledStm, [], [], 0, 0⟩ (by decide)
  have h2 := c6_inbound_count_and_r testSMConfig emptyEnv []
    ⟨[(queueKey testJid, ⟨testEnabledStm, [], [], 1, 0⟩)]⟩ testEnabledStm
    ⟨"r", [("xmlns", smNamespace)]⟩ ⟨testEnabledStm, [], [], 1, 0⟩ (by decide)
  obtain ⟨hq1, -, -⟩ := h1.1 (by decide) (by decide) (by decide)
  obtain ⟨hs2, ha2, -⟩ := h2.2 rfl (by decide)
  exact ⟨⟨hq1, rfl⟩, hs2, ha2.trans (by decide)⟩

/-- Claim C3: after an `<a h='N'/>` is received on an enabled stream, the
stream's queue holds no element with `h ≤ N`, and every element with `h > N`
is still present. -/
theorem c3_ack_trims_queue (cfg : Config) (env : Env) (nonce : List Nat)
    (ms : SMState) (stm : C2S) (el : XmlElement) (q : Queue) (n : Nat)
    (hq : List.lookup (queueKey stm.jid) ms.queueMap = some q)
    (hname : el.name = "a") (hns : el.attrD "xmlns" = smNamespace)
    (hn : parseUint32 (el.attrD "h") = n) :
    List.lookup (queueKey stm.jid)
        (processElementReceived cfg env nonce ms stm el).st.queueMap
      = some (queueAcknowledge q n) ∧
    (∀ e ∈ (queueAcknowledge q n).elements, ¬ e.h ≤ n) ∧
    (∀ e ∈ q.elements, n < e.h → e ∈ (queueAcknowledge q n).elements) := by
  have hd : processElementReceived cfg env nonce ms stm el = processA ms stm el := by
    have h1 : el.name ≠ "enable" := by rw [hname]; decide
    have h2 : el.name ≠ "r" := by rw [hname]; decide
    simp [processElementReceived, hns, hname]
  rw [hd]
  unfold processA
  rw [hq, hn]
  refine ⟨alistInsert_lookup ms.queueMap (queueKey stm.jid) _, ?_, ?_⟩
  · intro e he
    have := (List.mem_filter.1 he).2
    simp only [decide_eq_true_eq] at this
    omega
  · intro e he hlt
    exact List.mem_filter.2 ⟨he, by simp [hlt]⟩

/-- Claim C3, witness: the `TestStream_HandleA` scenario — elements at
h = 20, 21, 22 and `<a h='21'/>` leave exactly the element at h = 22. -/
theorem c3_ack_trims_queue_witness :
    List.lookup (queueKey testEnabledStm.jid)
        (processElementReceived testSMConfig emptyEnv []
          ⟨[(queueKey testJid, ⟨testEnabledStm, [],
              [⟨testMsgEl, 20⟩, ⟨testMsgEl, 21⟩, ⟨testMsgEl, 22⟩], 0, 0⟩)]⟩
          testEnabledStm (aRecvElement "21")).st.queueMap
      = some (queueAcknowledge
          ⟨testEnabledStm, [], [⟨testMsgEl, 20⟩, ⟨testMsgEl, 21⟩, ⟨testMsgEl, 22⟩], 0, 0⟩ 21) ∧
    (∀ e ∈ (queueAcknowledge
        ⟨testEnabledStm, [], [⟨testMsgEl, 20⟩, ⟨testMsgEl, 21⟩, ⟨testMsgEl, 22⟩], 0, 0⟩
        21).elements, ¬ e.h ≤ 21) ∧
    (queueAcknowledge
        ⟨testEnabledStm, [], [⟨testMsgEl, 20⟩, ⟨testMsgEl, 21⟩, ⟨testMsgEl, 22⟩], 0, 0⟩
        21).elements = [⟨testMsgEl, 22⟩] := by
  have h := c3_ack_trims_queue testSMConfig emptyEnv []
    ⟨[(queueKey testJid, ⟨testEnabledStm, [],
        [⟨testMsgEl, 20⟩, ⟨testMsgEl, 21⟩, ⟨testMsgEl, 22⟩], 0, 0⟩)]⟩
    testEnabledStm (aRecvElement "21")
    ⟨testEnabledStm, [], [⟨testMsgEl, 20⟩, ⟨testMsgEl, 21⟩, ⟨testMsgEl, 22⟩], 0, 0⟩ 21
    (by decide) rfl (by decide) (by decide)
  exact ⟨h.1, h.2.1, by decide⟩

/-- Claim C1: a `<resume previd='smid' h='N'/>` received on a new
authenticated stream, for a queue with a matching nonce, succeeds: the
handler halts, adopts the identity via `Resume`, replies
`<resumed previd='smid' h='in_h'/>` with `h` the queue's inbound counter, and
then replays the remaining queued stanzas in queue order — both when the
queue is owned locally and when it is obtained through the cluster
TransferQueue RPC. -/
theorem c1_resume_local_and_remote (cfg : Config) (env : Env) (nonce : List Nat)
    (ms : SMState) (stm : C2S) (jd : JID) (nc : List Nat) (el : XmlElement)
    (n : Nat) (rd : ResourceDesc)
    (hauth : stm.isAuthenticated = true)
    (hname : el.name = "resume") (hns : el.attrD "xmlns" = smNamespace)
    (hprevid : el.attrD "previd" = encodeSMID jd nc)
    (hdec : decodeSMID (encodeSMID jd nc) = some (jd, nc))
    (hn : parseUint32 (el.attrD "h") = n)
    (hrd : env.getResource jd.node jd.resource = some rd) :
    (rd.instanceID = env.localInstance →
      ∀ q, List.lookup (queueKey jd) ms.queueMap = some q → q.nonce = nc →
        (processElementReceived cfg env nonce ms stm el).halted = true ∧
        (processElementReceived cfg env nonce ms stm el).stm.resumedAs = some jd ∧
        (processElementReceived cfg env nonce ms stm el).stm.sent
          = stm.sent ++ resumedElement (encodeSMID jd nc) q.inH
              :: ((queueAcknowledge q n).elements.map QElement.stanza) ∧
        (resumedElement (encodeSMID jd nc) q.inH).attrD "h" = toString q.inH) ∧
    (rd.instanceID ≠ env.localInstance →
      ∀ tq, env.transferQueue (queueKey jd) = some tq → tq.nonce = nc →
        (processElementReceived cfg env nonce ms stm el).halted = true ∧
        (processElementReceived cfg env nonce ms stm el).stm.resumedAs = some jd ∧
        (processElementReceived cfg env nonce ms stm el).stm.sent
          = stm.sent ++ resumedElement (encodeSMID jd nc) tq.inH
              :: ((tq.elements.filter (fun e => decide (n < e.h))).map QElement.stanza) ∧
        (resumedElement (encodeSMID jd nc) tq.inH).attrD "h" = toString tq.inH) := by
  have hd : processElementReceived cfg env nonce ms stm el = processResume env ms stm el := by
    have h1 : el.name ≠ "enable" := by rw [hname]; decide
    have h2 : el.name ≠ "r" := by rw [hname]; decide
    have h3 : el.name ≠ "a" := by rw [hname]; decide
    simp [processElementReceived, hns, hname]
  rw [hd]
  unfold processResume
  rw [if_pos hauth, hprevid]
  dsimp only
  rw [hdec]
  dsimp only
  rw [hn, hrd]
  dsimp only
  constructor
  · intro hloc q hq hnonce
    rw [if_pos hloc, hq]
    dsimp only
    rw [if_pos hnonce]
    unfold installResume queueAcknowledge
    exact ⟨rfl, rfl, rfl, rfl⟩
  · intro hloc tq htq hnonce
    rw [if_neg hloc, htq]
    dsimp only
    rw [if_pos hnonce]
    unfold installResume queueAcknowledge
    exact ⟨rfl, rfl, rfl, rfl⟩

/-- Claim C1, witness: the `TestStream_Resume` and `TestStream_ResumeRemote`
scenarios — resume replies `<resumed h='10'/>` and replays the single queued
message, locally and through TransferQueue. -/
theorem c1_resume_witness :
    ((processElementReceived testSMConfig c1LocalEnv []
        ⟨[(queueKey testJid, c1LocalQueue)]⟩ testStm c1ResumeEl).halted = true ∧
      (processElementReceived testSMConfig c1LocalEnv []
        ⟨[(queueKey testJid, c1LocalQueue)]⟩ testStm c1ResumeEl).stm.resumedAs
        = some testJid ∧
      (processElementReceived testSMConfig c1LocalEnv []
        ⟨[(queueKey testJid, c1LocalQueue)]⟩ testStm c1ResumeEl).stm.sent
        = testStm.sent ++ resumedElement (encodeSMID testJid testNonceBytes) 10
            :: ((queueAcknowledge c1LocalQueue 21).elements.map QElement.stanza) ∧
      (queueAcknowledge c1LocalQueue 21).elements.map QElement.stanza = [testMsgOut] ∧
      (resumedElement (encodeSMID testJid testNonceBytes) 10).attrD "h" = "10") ∧
    ((processElementReceived testSMConfig c1RemoteEnv [] ⟨[]⟩ testStm c1ResumeEl).halted
        = true ∧
      (processElementReceived testSMConfig c1RemoteEnv [] ⟨[]⟩ testStm
          c1ResumeEl).stm.resumedAs = some testJid ∧
      (processElementReceived testSMConfig c1RemoteEnv [] ⟨[]⟩ testStm
          c1ResumeEl).stm.sent
        = testStm.sent ++ resumedElement (encodeSMID testJid testNonceBytes) 10
            :: (([⟨testMsgOut, 22⟩] : List QElement).filter
                (fun e => decide (21 < e.h))).map QElement.stanza ∧
      (([⟨testMsgOut, 22⟩] : List QElement).filter
          (fun e => decide (21 < e.h))).map QElement.stanza = [testMsgOut]) := by
  have hl := c1_resume_local_and_remote testSMConfig c1LocalEnv []
    ⟨[(queueKey testJid, c1LocalQueue)]⟩ testStm testJid testNonceBytes c1ResumeEl
    21 ⟨"inst-1", testJid⟩ rfl rfl rfl rfl (by decide) (by decide) rfl
  have hr := c1_resume_local_and_remote testSMConfig c1RemoteEnv []
    ⟨[]⟩ testStm testJid testNonceBytes c1ResumeEl
    21 ⟨"inst-1234", testJid⟩ rfl rfl rfl rfl (by decide) (by decide) rfl
  obtain ⟨h1, h2, h3, -⟩ := hl.1 rfl c1LocalQueue (by decide) rfl
  obtain ⟨g1, g2, g3, -⟩ := hr.2 (by decide) ⟨[⟨testMsgOut, 22⟩], testNonceBytes, 10, 0⟩ rfl rfl
  exact ⟨⟨h1, h2, h3, by decide, by decide⟩, g1, g2, g3, by decide⟩

/-- Claim C8, counterexample: with the `TestStream_HandleA` queue (out_h = 0,
elements at h = 20..22) an `<a h='21'/>` — 21 > out_h — leaves the stream
connected, and with the `TestStream_Resume` queue (out_h = 0) a
`<resume h='21'/>` succeeds, adopting the identity with no disconnect; the
claimed `policy-violation` disconnect does not happen on either path. -/
theorem c8_no_policy_violation_counterexample :
    ((0 : Nat) < 21 ∧
      (processElementReceived testSMConfig emptyEnv []
        ⟨[(queueKey testJid, ⟨testEnabledStm, [],
            [⟨testMsgEl, 20⟩, ⟨testMsgEl, 21⟩, ⟨testMsgEl, 22⟩], 0, 0⟩)]⟩
        testEnabledStm (aRecvElement "21")).stm.disconnected = none) ∧
    (c1LocalQueue.outH < 21 ∧
      (processElementReceived testSMConfig c1LocalEnv []
        ⟨[(queueKey testJid, c1LocalQueue)]⟩ testStm c1ResumeEl).stm.disconnected
        = none ∧
      (processElementReceived testSMConfig c1LocalEnv []
        ⟨[(queueKey testJid, c1LocalQueue)]⟩ testStm c1ResumeEl).stm.resumedAs
        = some testJid) := by
  decide

/-- Claim C8 (amended): an acknowledged count N strictly greater than the
queue's out_h does not disconnect the stream. For `<a h='N'/>` the handler
leaves the disconnect state untouched, trims the queue of elements with
`h ≤ N`, and re-sends the remaining stanzas; a `<resume/>` whose h exceeds
the located queue's out_h likewise succeeds, halting with the identity
adopted and no disconnect of the new stream. -/
theorem c8_over_ack_no_disconnect (cfg : Config) (env : Env) (nonce : List Nat)
    (ms : SMState) (stm : C2S) (el : XmlElement) (q : Queue) (n : Nat)
    (hq : List.lookup (queueKey stm.jid) ms.queueMap = some q)
    (hname : el.name = "a") (hns : el.attrD "xmlns" = smNamespace)
    (hn : parseUint32 (el.attrD "h") = n) (hover : q.outH < n) :
    ((processElementReceived cfg env nonce ms stm el).stm.disconnected
        = stm.disconnected ∧
      List.lookup (queueKey stm.jid)
          (processElementReceived cfg env nonce ms stm el).st.queueMap
        = some (queueAcknowledge q n) ∧
      (processElementReceived cfg env nonce ms stm el).stm.sent
        = stm.sent ++ (queueAcknowledge q n).elements.map QElement.stanza ∧
      (processElementReceived cfg env nonce ms stm el).halted = true) ∧
    (∀ (el2 : XmlElement) (jd : JID) (nc : List Nat) (rd : ResourceDesc) (q2 : Queue),
      stm.isAuthenticated = true → el2.name = "resume" →
      el2.attrD "xmlns" = smNamespace →
      el2.attrD "previd" = encodeSMID jd nc →
      decodeSMID (encodeSMID jd nc) = some (jd, nc) →
      parseUint32 (el2.attrD "h") = n →
      env.getResource jd.node jd.resource = some rd →
      rd.instanceID = env.localInstance →
      List.lookup (queueKey jd) ms.queueMap = some q2 → q2.nonce = nc →
      q2.outH < n →
      (processElementReceived cfg env nonce ms stm el2).stm.disconnected
          = stm.disconnected ∧
        (processElementReceived cfg env nonce ms stm el2).halted = true ∧
        (processElementReceived cfg env nonce ms stm el2).stm.resumedAs = some jd) := by
  constructor
  · have hd : processElementReceived cfg env nonce ms stm el = processA ms stm el := by
      have h1 : el.name ≠ "enable" := by rw [hname]; decide
      have h2 : el.name ≠ "r" := by rw [hname]; decide
      simp [processElementReceived, hns, hname]
    rw [hd]
    unfold processA
    rw [hq, hn]
    exact ⟨rfl, alistInsert_lookup ms.queueMap (queueKey stm.jid) _, rfl, rfl⟩
  · intro el2 jd nc rd q2 hauth h2name h2ns h2previd h2dec h2n hrd hloc hq2 hnc hover2
    have hd : processElementReceived cfg env nonce ms stm el2
        = processResume env ms stm el2 := by
      have h1 : el2.name ≠ "enable" := by rw [h2name]; decide
      have h2 : el2.name ≠ "r" := by rw [h2name]; decide
      have h3 : el2.name ≠ "a" := by rw [h2name]; decide
      simp [processElementReceived, h2ns, h2name]
    rw [hd]
    unfold processResume
    rw [if_pos hauth, h2previd]
    dsimp only
    rw [h2dec]
    dsimp only
    rw [h2n, hrd]
    dsimp only
    rw [if_pos hloc, hq2]
    dsimp only
    rw [if_pos hnc]
    unfold installResume
    exact ⟨rfl, rfl, rfl⟩

/-- Claim C8 (amended), witness: the counterexample inputs run through the
amended theorem. -/
theorem c8_over_ack_no_disconnect_witness :
    (processElementReceived testSMConfig c1LocalEnv []
      ⟨[(queueKey testJid, ⟨testEnabledStm, [],
          [⟨testMsgEl, 20⟩, ⟨testMsgEl, 21⟩, ⟨testMsgEl, 22⟩], 0, 0⟩)]⟩
      testEnabledStm (aRecvElement "21")).stm.disconnected
        = testEnabledStm.disconnected ∧
    (processElementReceived testSMConfig c1LocalEnv []
      ⟨[(queueKey testJid, ⟨testEnabledStm, [],
          [⟨testMsgEl, 20⟩, ⟨testMsgEl, 21⟩, ⟨testMsgEl, 22⟩], 0, 0⟩)]⟩
      testEnabledStm (aRecvElement "21")).halted = true ∧
    (processElementReceived testSMConfig c1LocalEnv []
      ⟨[(queueKey testJid, c1LocalQueue)]⟩ testStm c1ResumeEl).stm.disconnected
        = testStm.disconnected ∧
    (processElementReceived testSMConfig c1LocalEnv []
      ⟨[(queueKey testJid, c1LocalQueue)]⟩ testStm c1ResumeEl).stm.resumedAs
        = some testJid := by
  have ha := c8_over_ack_no_disconnect testSMConfig c1LocalEnv []
    ⟨[(queueKey testJid, ⟨testEnabledStm, [],
        [⟨testMsgEl, 20⟩, ⟨testMsgEl, 21⟩, ⟨testMsgEl, 22⟩], 0, 0⟩)]⟩
    testEnabledStm (aRecvElement "21")
    ⟨testEnabledStm, [], [⟨testMsgEl, 20⟩, ⟨testMsgEl, 21⟩, ⟨testMsgEl, 22⟩], 0, 0⟩
    21 (by decide) rfl (by decide) (by decide) (by decide)
  have hb := c8_over_ack_no_disconnect testSMConfig c1LocalEnv []
    ⟨[(queueKey testJid, c1LocalQueue)]⟩ testStm (aRecvElement "21") c1LocalQueue
    21 (by decide) rfl (by decide) (by decide) (by decide)
  obtain ⟨hd2, hh2, hr2⟩ := hb.2 c1ResumeEl testJid testNonceBytes
    ⟨"inst-1", testJid⟩ c1LocalQueue rfl rfl (by decide) (by decide) (by decide)
    (by decide) rfl rfl (by decide) rfl (by decide)
  exact ⟨ha.1.1, ha.1.2.2.2, hd2, hr2⟩

theorem applyQOp_preserves_bounded (cfg : Config) (s : SMState × C2S) (op : QOp)
    (hinv : QueuesBounded cfg s) : QueuesBounded cfg (applyQOp cfg s op) := by
  by_cases hdc : s.2.disconnected = none
  · cases op with
    | outStanza el =>
        intro hdc' k q hk
        rw [applyQOp, if_pos hdc] at hdc' hk
        unfold processElementSent at hdc' hk
        by_cases hcond : isStanza el = true ∧
            List.lookup enabledInfoKey s.2.info = some "true"
        · rw [if_pos hcond] at hdc' hk
          cases hq0 : List.lookup (queueKey s.2.jid) s.1.queueMap with
          | none =>
              rw [hq0] at hk
              exact hinv hdc k q hk
          | some q0 =>
              rw [hq0] at hdc' hk
              dsimp only at hdc' hk
              by_cases hover : cfg.maxQueueSize < (queueHandleOut q0 el).elements.length
              · rw [if_pos hover] at hdc'
                exact absurd hdc' (by simp)
              · rw [if_neg hover] at hk
                dsimp only at hk
                by_cases hkey : k = queueKey s.2.jid
                · subst hkey
                  rw [alistInsert_lookup] at hk
                  cases hk
                  omega
                · rw [alistInsert_lookup_ne _ _ _ _ hkey] at hk
                  exact hinv hdc k q hk
        · rw [if_neg hcond] at hk
          exact hinv hdc k q hk
    | ackRecv h =>
        intro hdc' k q hk
        rw [applyQOp, if_pos hdc] at hdc' hk
        unfold processA at hdc' hk
        cases hq0 : List.lookup (queueKey s.2.jid) s.1.queueMap with
        | none =>
            rw [hq0] at hk
            exact hinv hdc k q hk
        | some q0 =>
            rw [hq0] at hk
            dsimp only at hk
            by_cases hkey : k = queueKey s.2.jid
            · subst hkey
              rw [alistInsert_lookup] at hk
              cases hk
              calc (queueAcknowledge q0 _).elements.length
                  ≤ q0.elements.length := List.length_filter_le _ _
                _ ≤ cfg.maxQueueSize := hinv hdc _ q0 hq0
            · rw [alistInsert_lookup_ne _ _ _ _ hkey] at hk
              exact hinv hdc k q hk
  · have hfr : applyQOp cfg s op = s := by
      cases op with
      | outStanza el => rw [applyQOp, if_neg hdc]
      | ackRecv h => rw [applyQOp, if_neg hdc]
    rw [hfr]
    exact hinv

theorem runQOps_preserves_bounded (cfg : Config) (ops : List QOp) :
    ∀ s : SMState × C2S, QueuesBounded cfg s → QueuesBounded cfg (runQOps cfg s ops) := by
  induction ops with
  | nil => exact fun s h => h
  | cons op rest ih =>
      intro s hs
      have : runQOps cfg s (op :: rest) = runQOps cfg (applyQOp cfg s op) rest := rfl
      rw [this]
      exact ih _ (applyQOp_preserves_bounded cfg s op hs)

/-- Claim C4: appending an outbound stanza that would push the queue beyond
MaxQueueSize disconnects the stream with `policy-violation`, and over any run
of appends and acknowledgements a queue never exceeds MaxQueueSize unless
that disconnect occurred. -/
theorem c4_max_queue_size (cfg : Config) :
    (∀ (ms : SMState) (stm : C2S) (el : XmlElement) (q : Queue),
      isStanza el = true → List.lookup enabledInfoKey stm.info = some "true" →
      List.lookup (queueKey stm.jid) ms.queueMap = some q →
      cfg.maxQueueSize < q.elements.length + 1 →
      (processElementSent cfg ms stm el).2.disconnected
        = some StreamError.policyViolation) ∧
    (∀ (s : SMState × C2S) (ops : List QOp),
      (∀ k q, List.lookup k s.1.queueMap = some q →
        q.elements.length ≤ cfg.maxQueueSize) →
      (runQOps cfg s ops).2.disconnected = none →
      ∀ k q, List.lookup k (runQOps cfg s ops).1.queueMap = some q →
        q.elements.length ≤ cfg.maxQueueSize) := by
  constructor
  · intro ms stm el q hst hen hq hover
    unfold processElementSent
    rw [if_pos ⟨hst, hen⟩, hq]
    dsimp only
    have hlen : cfg.maxQueueSize < (queueHandleOut q el).elements.length := by
      simp [queueHandleOut]
      omega
    rw [if_pos hlen]
  · intro s ops hinit
    exact runQOps_preserves_bounded cfg ops s (fun _ => hinit)

/-- Claim C4, witness: the `TestStream_OutStanzaMaxQueueSizeReached` scenario
— MaxQueueSize 1 and a second outbound message — ends in a
`policy-violation` disconnect, and a short run below the bound stays bounded. -/
theorem c4_max_queue_size_witness :
    (processElementSent ⟨60, 1, 1, 1⟩
        ⟨[(queueKey testJid, ⟨testEnabledStm, [], [⟨testMsgOut, 1⟩], 0, 1⟩)]⟩
        testEnabledStm testMsgOut).2.disconnected
      = some StreamError.policyViolation ∧
    ((runQOps testSMConfig (⟨[(queueKey testJid, ⟨testEnabledStm, [], [], 0, 0⟩)]⟩,
        testEnabledStm) [QOp.outStanza testMsgOut, QOp.outStanza testMsgOut,
          QOp.ackRecv "2"]).2.disconnected = none →
      ∀ k q, List.lookup k (runQOps testSMConfig
          (⟨[(queueKey testJid, ⟨testEnabledStm, [], [], 0, 0⟩)]⟩, testEnabledStm)
          [QOp.outStanza testMsgOut, QOp.outStanza testMsgOut,
            QOp.ackRecv "2"]).1.queueMap = some q →
        q.elements.length ≤ testSMConfig.maxQueueSize) := by
  constructor
  · exact (c4_max_queue_size ⟨60, 1, 1, 1⟩).1
      ⟨[(queueKey testJid, ⟨testEnabledStm, [], [⟨testMsgOut, 1⟩], 0, 1⟩)]⟩
      testEnabledStm testMsgOut ⟨testEnabledStm, [], [⟨testMsgOut, 1⟩], 0, 1⟩
      (by decide) (by decide) (by decide) (by decide)
  · refine (c4_max_queue_size testSMConfig).2
      (⟨[(queueKey testJid, ⟨testEnabledStm, [], [], 0, 0⟩)]⟩, testEnabledStm)
      [QOp.outStanza testMsgOut, QOp.outStanza testMsgOut, QOp.ackRecv "2"] ?_
    intro k q hk
    rw [List.lookup_cons] at hk
    by_cases hkey : k = queueKey testJid
    · have hb : (k == queueKey testJid) = true := beq_iff_eq.2 hkey
      simp only [hb] at hk
      cases hk
      exact Nat.zero_le _
    · have hb : (k == queueKey testJid) = false := beq_eq_false_iff_ne.2 hkey
      simp only [hb] at hk
      cases hk

theorem filter_lt_range' (N : Nat) :
    ∀ (n s : Nat), (List.range' s n).filter (fun x => decide (N < x))
      = List.range' (max s (N + 1)) (s + n - max s (N + 1)) := by
  intro n
  induction n with
  | zero =>
      intro s
      have h0 : s + 0 - max s (N + 1) = 0 := by omega
      rw [h0]
      rfl
  | succ n ih =>
      intro s
      rw [List.range'_succ, List.filter_cons]
      by_cases hs : N < s
      · have hd : decide (N < s) = true := decide_eq_true hs
        rw [hd]
        simp only [if_true]
        rw [ih (s + 1)]
        have h1 : max (s + 1) (N + 1) = s + 1 := by omega
        have h2 : max s (N + 1) = s := by omega
        rw [h1, h2]
        have h3 : s + 1 + n - (s + 1) = n := by omega
        have h4 : s + (n + 1) - s = n + 1 := by omega
        rw [h3, h4, List.range'_succ]
      · have hd : decide (N < s) = false := decide_eq_false hs
        rw [hd]
        simp only [Bool.false_eq_true, if_false]
        rw [ih (s + 1)]
        have h1 : max (s + 1) (N + 1) = N + 1 := by omega
        have h2 : max s (N + 1) = N + 1 := by omega
        have h3 : s + 1 + n - (N + 1) = s + (n + 1) - (N + 1) := by omega
        rw [h1, h2, h3]

theorem map_h_filter (l : List QElement) (n : Nat) :
    (l.filter (fun e => decide (n < e.h))).map QElement.h
      = (l.map QElement.h).filter (fun x => decide (n < x)) := by
  induction l with
  | nil => rfl
  | cons e rest ih =>
      rw [List.filter_cons, List.map_cons, List.filter_cons]
      by_cases hs : n < e.h
      · simp only [decide_eq_true hs, if_true, List.map_cons, ih]
      · simp only [decide_eq_false hs, Bool.false_eq_true, if_false, ih]

theorem QInv_ack (q : Queue) (n : Nat) (hinv : QInv q) :
    QInv (queueAcknowledge q n) := by
  obtain ⟨s, hmap, hsum⟩ := hinv
  have hmap' : (queueAcknowledge q n).elements.map QElement.h
      = List.range' (max s (n + 1)) (s + q.elements.length - max s (n + 1)) := by
    rw [queueAcknowledge]
    dsimp only
    rw [map_h_filter, hmap, filter_lt_range']
  have hlen : (queueAcknowledge q n).elements.length
      = s + q.elements.length - max s (n + 1) := by
    have := congrArg List.length hmap'
    simpa using this
  by_cases hle : max s (n + 1) ≤ s + q.elements.length
  · refine ⟨max s (n + 1), ?_, ?_⟩
    · rw [hmap', hlen]
    · rw [hlen]
      show max s (n + 1) + (s + q.elements.length - max s (n + 1))
        = (queueAcknowledge q n).outH + 1
      have houtH : (queueAcknowledge q n).outH = q.outH := rfl
      omega
  · refine ⟨(queueAcknowledge q n).outH + 1, ?_, ?_⟩
    · rw [hmap', hlen]
      have h0 : s + q.elements.length - max s (n + 1) = 0 := by omega
      rw [h0]
      rfl
    · rw [hlen]
      omega

theorem QInv_handleOut (q : Queue) (el : XmlElement)
    (hw : q.outH + 1 < uint32Mod) (hinv : QInv q) :
    QInv (queueHandleOut q el) ∧ (queueHandleOut q el).outH = q.outH + 1 := by
  obtain ⟨s, hmap, hsum⟩ := hinv
  have hmod : (q.outH + 1) % uint32Mod = q.outH + 1 := Nat.mod_eq_of_lt hw
  have houtH : (queueHandleOut q el).outH = q.outH + 1 := by
    rw [queueHandleOut]
    exact hmod
  refine ⟨⟨s, ?_, ?_⟩, houtH⟩
  · show ((q.elements ++ [(⟨el, (q.outH + 1) % uint32Mod⟩ : QElement)]).map QElement.h)
      = List.range' s (q.elements ++ [(⟨el, (q.outH + 1) % uint32Mod⟩ : QElement)]).length
    rw [List.map_append, hmap, hmod]
    simp only [List.map_cons, List.map_nil, List.length_append, List.length_cons,
      List.length_nil]
    rw [List.range'_concat]
    congr 2
    omega
  · show s + (q.elements ++ [(⟨el, (q.outH + 1) % uint32Mod⟩ : QElement)]).length
      = (queueHandleOut q el).outH + 1
    rw [houtH]
    simp only [List.length_append, List.length_cons, List.length_nil]
    omega

theorem chain'_consec : ∀ (n s : Nat),
    List.Chain' (fun a b => b = a + 1) (List.range' s n)
  | 0, _ => by simp
  | 1, _ => by simp
  | (n + 2), s => by
      rw [List.range'_succ, List.range'_succ, List.chain'_cons]
      refine ⟨rfl, ?_⟩
      rw [← List.range'_succ]
      exact chain'_consec (n + 1) (s + 1)

theorem QInv_chain_last (q : Queue) (hinv : QInv q) :
    List.Chain' (fun a b => b = a + 1) (q.elements.map QElement.h) ∧
    (∀ e, q.elements.getLast? = some e → e.h = q.outH) := by
  obtain ⟨s, hmap, hsum⟩ := hinv
  constructor
  · rw [hmap]
    exact chain'_consec _ _
  · intro e he
    have h1 : (q.elements.map QElement.h).getLast? = some e.h := by
      rw [List.getLast?_map, he]
      rfl
    rw [hmap] at h1
    cases hlen : q.elements.length with
    | zero =>
        rw [hlen] at h1
        cases h1
    | succ m =>
        rw [hlen] at h1 hsum
        rw [List.range'_concat, List.getLast?_concat] at h1
        have h2 := Option.some.inj h1
        omega

theorem processElementSent_cases (cfg : Config) (ms : SMState) (stm : C2S)
    (el : XmlElement) (q0 : Queue)
    (hq0 : List.lookup (queueKey stm.jid) ms.queueMap = some q0) :
    (processElementSent cfg ms stm el = (ms, stm)) ∨
    ((processElementSent cfg ms stm el).1.queueMap
        = alistInsert ms.queueMap (queueKey stm.jid) (queueHandleOut q0 el) ∧
      (processElementSent cfg ms stm el).2.jid = stm.jid) := by
  unfold processElementSent
  by_cases hcond : isStanza el = true ∧
      List.lookup enabledInfoKey stm.info = some "true"
  · rw [if_pos hcond, hq0]
    dsimp only
    by_cases hover : cfg.maxQueueSize < (queueHandleOut q0 el).elements.length
    · rw [if_pos hover]
      exact Or.inr ⟨rfl, rfl⟩
    · rw [if_neg hover]
      exact Or.inr ⟨rfl, rfl⟩
  · rw [if_neg hcond]
    exact Or.inl rfl

theorem processA_cases (ms : SMState) (stm : C2S) (el : XmlElement) (q0 : Queue)
    (hq0 : List.lookup (queueKey stm.jid) ms.queueMap = some q0) :
    (processA ms stm el).st.queueMap
      = alistInsert ms.queueMap (queueKey stm.jid)
          (queueAcknowledge q0 (parseUint32 (el.attrD "h"))) ∧
    (processA ms stm el).stm.jid = stm.jid := by
  unfold processA
  rw [hq0]
  exact ⟨rfl, rfl⟩

theorem runQOps_QInv (cfg : Config) (ops : List QOp) :
    ∀ (s : SMState × C2S) (q0 : Queue),
      List.lookup (queueKey s.2.jid) s.1.queueMap = some q0 → QInv q0 →
      q0.outH + countOuts ops < uint32Mod →
      ∃ q1, List.lookup (queueKey s.2.jid) (runQOps cfg s ops).1.queueMap = some q1 ∧
        QInv q1 ∧ q1.outH ≤ q0.outH + countOuts ops := by
  induction ops with
  | nil => exact fun s q0 h hi _ => ⟨q0, h, hi, Nat.le_refl _⟩
  | cons op rest ih =>
      intro s q0 hq0 hinv hw
      have hrun : runQOps cfg s (op :: rest) = runQOps cfg (applyQOp cfg s op) rest := rfl
      rw [hrun]
      cases op with
      | outStanza el =>
          have hcount : countOuts (QOp.outStanza el :: rest) = countOuts rest + 1 := rfl
          rw [hcount] at hw ⊢
          by_cases hdc : s.2.disconnected = none
          · have ha : applyQOp cfg s (QOp.outStanza el)
                = processElementSent cfg s.1 s.2 el := by
              rw [applyQOp, if_pos hdc]
            rw [ha]
            rcases processElementSent_cases cfg s.1 s.2 el q0 hq0 with heq | ⟨hmap, hjid⟩
            · rw [heq, Prod.mk.eta]
              obtain ⟨q1, h1, h2, h3⟩ := ih s q0 hq0 hinv (by omega)
              exact ⟨q1, h1, h2, by omega⟩
            · obtain ⟨hq', houtH⟩ := QInv_handleOut q0 el (by omega) hinv
              have hlook : List.lookup (queueKey (processElementSent cfg s.1 s.2 el).2.jid)
                  (processElementSent cfg s.1 s.2 el).1.queueMap
                  = some (queueHandleOut q0 el) := by
                rw [hjid, hmap]
                exact alistInsert_lookup _ _ _
              obtain ⟨q1, h1, h2, h3⟩ := ih (processElementSent cfg s.1 s.2 el)
                (queueHandleOut q0 el) hlook hq' (by rw [houtH]; omega)
              refine ⟨q1, ?_, h2, by rw [houtH] at h3; omega⟩
              rwa [hjid] at h1
          · have ha : applyQOp cfg s (QOp.outStanza el) = s := by
              rw [applyQOp, if_neg hdc]
            rw [ha]
            obtain ⟨q1, h1, h2, h3⟩ := ih s q0 hq0 hinv (by omega)
            exact ⟨q1, h1, h2, by omega⟩
      | ackRecv h =>
          have hcount : countOuts (QOp.ackRecv h :: rest) = countOuts rest := rfl
          rw [hcount] at hw ⊢
          by_cases hdc : s.2.disconnected = none
          · have ha : applyQOp cfg s (QOp.ackRecv h)
                = ((processA s.1 s.2 (aRecvElement h)).st,
                   (processA s.1 s.2 (aRecvElement h)).stm) := by
              rw [applyQOp, if_pos hdc]
            rw [ha]
            obtain ⟨hmap, hjid⟩ := processA_cases s.1 s.2 (aRecvElement h) q0 hq0
            have hinv' := QInv_ack q0 (parseUint32 ((aRecvElement h).attrD "h")) hinv
            have hlook : List.lookup
                (queueKey ((processA s.1 s.2 (aRecvElement h)).st,
                  (processA s.1 s.2 (aRecvElement h)).stm).2.jid)
                ((processA s.1 s.2 (aRecvElement h)).st,
                  (processA s.1 s.2 (aRecvElement h)).stm).1.queueMap
                = some (queueAcknowledge q0
                    (parseUint32 ((aRecvElement h).attrD "h"))) := by
              show List.lookup (queueKey (processA s.1 s.2 (aRecvElement h)).stm.jid)
                (processA s.1 s.2 (aRecvElement h)).st.queueMap = _
              rw [hjid, hmap]
              exact alistInsert_lookup _ _ _
            obtain ⟨q1, h1, h2, h3⟩ := ih _ _ hlook hinv' hw
            refine ⟨q1, ?_, h2, h3⟩
            rwa [hjid] at h1
          · have ha : applyQOp cfg s (QOp.ackRecv h) = s := by
              rw [applyQOp, if_neg hdc]
            rw [ha]
            exact ih s q0 hq0 hinv hw

/-- Claim C5: after any sequence of outbound-stanza appends and ack-trims
(with fewer than 2^32 appends, so the uint32 counter does not wrap), the
queue's h values are strictly increasing with no gaps — each is its
predecessor plus one — the h of the last element equals the queue's `out_h`,
and each append increments `out_h` by one and stores the stanza with the new
`out_h`. -/
theorem c5_queue_h_invariant (cfg : Config) (s : SMState × C2S) (ops : List QOp)
    (q0 : Queue)
    (hq0 : List.lookup (queueKey s.2.jid) s.1.queueMap = some q0)
    (hinv : QInv q0)
    (hw : q0.outH + countOuts ops < uint32Mod) :
    (∃ q1, List.lookup (queueKey s.2.jid) (runQOps cfg s ops).1.queueMap = some q1 ∧
      List.Chain' (fun a b => b = a + 1) (q1.elements.map QElement.h) ∧
      (∀ e, q1.elements.getLast? = some e → e.h = q1.outH)) ∧
    (∀ (q : Queue) (el : XmlElement), q.outH + 1 < uint32Mod →
      (queueHandleOut q el).outH = q.outH + 1 ∧
      (queueHandleOut q el).elements
        = q.elements ++ [(⟨el, q.outH + 1⟩ : QElement)]) := by
  constructor
  · obtain ⟨q1, h1, h2, -⟩ := runQOps_QInv cfg ops s q0 hq0 hinv hw
    exact ⟨q1, h1, (QInv_chain_last q1 h2).1, (QInv_chain_last q1 h2).2⟩
  · intro q el hwrap
    have hmod : (q.outH + 1) % uint32Mod = q.outH + 1 := Nat.mod_eq_of_lt hwrap
    constructor
    · show (q.outH + 1) % uint32Mod = q.outH + 1
      exact hmod
    · show q.elements ++ [(⟨el, (q.outH + 1) % uint32Mod⟩ : QElement)]
        = q.elements ++ [(⟨el, q.outH + 1⟩ : QElement)]
      rw [hmod]

/-- Claim C5, witness: two appends then `<a h='1'/>` starting from a fresh
queue leave the single element at h = 2 with `out_h = 2`, satisfying the
chain and last-element properties; and a concrete append stores
`{stanza, out_h + 1}`. -/
theorem c5_queue_h_invariant_witness :
    (∃ q1, List.lookup (queueKey testEnabledStm.jid)
        (runQOps testSMConfig (⟨[(queueKey testJid, ⟨testEnabledStm, [], [], 0, 0⟩)]⟩,
          testEnabledStm) [QOp.outStanza testMsgOut, QOp.outStanza testMsgOut,
            QOp.ackRecv "1"]).1.queueMap = some q1 ∧
      List.Chain' (fun a b => b = a + 1) (q1.elements.map QElement.h) ∧
      (∀ e, q1.elements.getLast? = some e → e.h = q1.outH)) ∧
    (queueHandleOut ⟨testEnabledStm, [], [⟨testMsgOut, 1⟩], 0, 1⟩ testMsgOut).outH = 2 ∧
    (queueHandleOut ⟨testEnabledStm, [], [⟨testMsgOut, 1⟩], 0, 1⟩ testMsgOut).elements
      = [⟨testMsgOut, 1⟩, ⟨testMsgOut, 2⟩] := by
  have h := c5_queue_h_invariant testSMConfig
    (⟨[(queueKey testJid, ⟨testEnabledStm, [], [], 0, 0⟩)]⟩, testEnabledStm)
    [QOp.outStanza testMsgOut, QOp.outStanza testMsgOut, QOp.ackRecv "1"]
    ⟨testEnabledStm, [], [], 0, 0⟩ (by decide) ⟨1, rfl, rfl⟩ (by decide)
  obtain ⟨h2a, h2b⟩ := h.2 ⟨testEnabledStm, [], [⟨testMsgOut, 1⟩], 0, 1⟩ testMsgOut (by decide)
  exact ⟨h.1, h2a, by rw [h2b]; rfl⟩

/-- Claim C9: after `StartTLS` completes on a socket transport,
`SupportsChannelBinding` is true exactly when the negotiated TLS version is
below 1.3; when unsupported, `ChannelBindingBytes` is nil for every
mechanism, and when supported it returns the connection's TLSUnique value
for the tls-unique mechanism. -/
theorem c9_channel_binding (s : SocketTransport) (version : Nat)
    (tlsUnique : List Nat) (htcp : s.conn = TConn.tcp) :
    (supportsChannelBinding (startTLS s version tlsUnique) = true
      ↔ version < versionTLS13) ∧
    (supportsChannelBinding (startTLS s version tlsUnique) = false →
      ∀ mechanism, channelBindingBytes (startTLS s version tlsUnique) mechanism
        = none) ∧
    (supportsChannelBinding (startTLS s version tlsUnique) = true →
      channelBindingBytes (startTLS s version tlsUnique) tlsUniqueMechanism
        = some tlsUnique) := by
  have hst : startTLS s version tlsUnique
      = { s with
          conn := TConn.tls version tlsUnique,
          supportsCb := decide (version < versionTLS13) } := by
    rw [startTLS, htcp]
  rw [hst]
  refine ⟨?_, ?_, ?_⟩
  · show decide (version < versionTLS13) = true ↔ version < versionTLS13
    exact decide_eq_true_iff
  · intro hf mechanism
    show channelBindingBytes _ mechanism = none
    unfold channelBindingBytes
    have : (decide (version < versionTLS13)) = false := hf
    simp [supportsChannelBinding] at hf ⊢
    simp [hf]
  · intro ht
    have hv : decide (version < versionTLS13) = true := ht
    unfold channelBindingBytes
    simp [hv]

/-- Claim C9, witness: a TLS 1.2 handshake (version 0x0303) supports channel
binding and exposes its TLSUnique bytes for tls-unique; a TLS 1.3 handshake
(version 0x0304) supports no channel binding and yields nil for every
mechanism. -/
theorem c9_channel_binding_witness :
    (supportsChannelBinding (startTLS ⟨TConn.tcp, false⟩ 771 [9, 9]) = true
      ↔ (771 : Nat) < versionTLS13) ∧
    (supportsChannelBinding (startTLS ⟨TConn.tcp, false⟩ 771 [9, 9]) = true →
      channelBindingBytes (startTLS ⟨TConn.tcp, false⟩ 771 [9, 9])
        tlsUniqueMechanism = some [9, 9]) ∧
    (supportsChannelBinding (startTLS ⟨TConn.tcp, false⟩ 772 [9, 9]) = false →
      ∀ mechanism, channelBindingBytes (startTLS ⟨TConn.tcp, false⟩ 772 [9, 9])
        mechanism = none) :=
  ⟨(c9_channel_binding ⟨TConn.tcp, false⟩ 771 [9, 9] rfl).1,
    (c9_channel_binding ⟨TConn.tcp, false⟩ 771 [9, 9] rfl).2.2,
    (c9_channel_binding ⟨TConn.tcp, false⟩ 772 [9, 9] rfl).2.1⟩

theorem trimPfx_append (t : List Char) :
    trimPfx (memberKeyPfx ++ t) memberKeyPfx = t := by
  have h : memberKeyPfx.isPrefixOf (memberKeyPfx ++ t) = true := by
    rw [List.isPrefixOf_iff_prefix]
    exact List.prefix_append _ _
  rw [trimPfx, if_pos h, List.drop_left]

theorem NoLocal_lookup_none (localID : List Char) (m : List (List Char × Member))
    (h : NoLocal localID m) : List.lookup localID m = none := by
  induction m with
  | nil => rfl
  | cons p rest ih =>
      obtain ⟨k, v⟩ := p
      have hk : k ≠ localID := h (k, v) (List.mem_cons_self _ _)
      have hb : (localID == k) = false := beq_eq_false_iff_ne.2 (Ne.symm hk)
      rw [List.lookup_cons]
      simp only [hb]
      exact ih (fun p hp => h p (List.mem_cons_of_mem _ hp))

theorem NoLocal_alistInsert (localID : List Char) (m : List (List Char × Member))
    (k : List Char) (v : Member) (h : NoLocal localID m) (hk : k ≠ localID) :
    NoLocal localID (alistInsert m k v) := by
  intro p hp
  rcases List.mem_cons.1 hp with rfl | hp'
  · exact hk
  · exact h p (List.mem_filter.1 hp').1

theorem NoLocal_alistErase (localID : List Char) (m : List (List Char × Member))
    (k : List Char) (h : NoLocal localID m) : NoLocal localID (alistErase m k) :=
  fun p hp => h p (List.mem_filter.1 hp).1

theorem decode_instanceID (key val : List Char) (m : Member)
    (h : decodeClusterMember key val = some m) :
    m.instanceID = trimPfx key memberKeyPfx := by
  rw [decodeClusterMember] at h
  cases hsp : splitHostPort (scanMemberValue val).1 with
  | none => rw [hsp] at h; cases h
  | some hp =>
      obtain ⟨host, sPort⟩ := hp
      rw [hsp] at h
      cases h
      rfl

theorem not_local_of_prefixed (localID k t : List Char)
    (hk : k = memberKeyPfx ++ t) (hl : isLocalMemberKey localID k = false) :
    t ≠ localID := by
  intro heq
  subst heq
  rw [isLocalMemberKey, localMemberKey, hk] at hl
  simp at hl

theorem getMembersList_no_local (localID : List Char) :
    ∀ listing : List (List Char × List Char),
      (∀ p ∈ listing, ∃ t, p.1 = memberKeyPfx ++ t) →
      ∀ m ∈ getMembersList localID listing, m.instanceID ≠ localID := by
  intro listing
  induction listing with
  | nil => intro _ m hm; cases hm
  | cons p rest ih =>
      intro hpfx m hm
      obtain ⟨k, v⟩ := p
      rw [getMembersList] at hm
      by_cases hl : isLocalMemberKey localID k = true
      · rw [if_pos hl] at hm
        exact ih (fun p hp => hpfx p (List.mem_cons_of_mem _ hp)) m hm
      · have hl' : isLocalMemberKey localID k = false := by
          cases hloc : isLocalMemberKey localID k with
          | true => exact absurd hloc hl
          | false => rfl
        rw [if_neg hl] at hm
        cases hdec : decodeClusterMember k v with
        | none =>
            rw [hdec] at hm
            exact ih (fun p hp => hpfx p (List.mem_cons_of_mem _ hp)) m hm
        | some mem =>
            rw [hdec] at hm
            rcases List.mem_cons.1 hm with rfl | hm'
            · obtain ⟨t, ht⟩ := hpfx (k, v) (List.mem_cons_self _ _)
              have ht' : k = memberKeyPfx ++ t := ht
              have hid := decode_instanceID k v m hdec
              rw [hid, ht', trimPfx_append]
              exact not_local_of_prefixed localID k t ht' hl'
            · exact ih (fun p hp => hpfx p (List.mem_cons_of_mem _ hp)) m hm'

theorem insertMembers_no_local (localID : List Char) :
    ∀ (ms : List Member) (m0 : List (List Char × Member)),
      (∀ m ∈ ms, m.instanceID ≠ localID) → NoLocal localID m0 →
      NoLocal localID (insertMembers ms m0) := by
  intro ms
  induction ms with
  | nil => exact fun m0 _ h0 => h0
  | cons m rest ih =>
      intro m0 hms h0
      have : insertMembers (m :: rest) m0
          = insertMembers rest (alistInsert m0 m.instanceID m) := rfl
      rw [this]
      exact ih _ (fun x hx => hms x (List.mem_cons_of_mem _ hx))
        (NoLocal_alistInsert localID m0 _ m h0 (hms m (List.mem_cons_self _ _)))

theorem processKVEvents_no_local (localID : List Char) :
    ∀ (evs : List KVEvent) (m : List (List Char × Member)),
      NoLocal localID m →
      (∀ ev ∈ evs, ∃ t, ev.key = memberKeyPfx ++ t) →
      NoLocal localID (processKVEvents localID m evs) := by
  intro evs
  induction evs with
  | nil => exact fun m hm _ => hm
  | cons ev rest ih =>
      intro m hm hpfx
      rw [processKVEvents]
      by_cases hl : isLocalMemberKey localID ev.key = true
      · rw [if_pos hl]
        exact ih m hm (fun e he => hpfx e (List.mem_cons_of_mem _ he))
      · have hl' : isLocalMemberKey localID ev.key = false := by
          cases hloc : isLocalMemberKey localID ev.key with
          | true => exact absurd hloc hl
          | false => rfl
        rw [if_neg hl]
        cases htype : ev.type with
        | put =>
            cases hdec : decodeClusterMember ev.key ev.val with
            | none => exact hm
            | some mem =>
                refine ih _ ?_ (fun e he => hpfx e (List.mem_cons_of_mem _ he))
                obtain ⟨t, ht⟩ := hpfx ev (List.mem_cons_self _ _)
                have hid := decode_instanceID ev.key ev.val mem hdec
                refine NoLocal_alistInsert localID m _ mem hm ?_
                rw [hid, ht, trimPfx_append]
                exact not_local_of_prefixed localID ev.key t ht hl'
        | del =>
            exact ih _ (NoLocal_alistErase localID m _ hm)
              (fun e he => hpfx e (List.mem_cons_of_mem _ he))

theorem foldl_processKVEvents_no_local (localID : List Char) :
    ∀ (batches : List (List KVEvent)) (m0 : List (List Char × Member)),
      NoLocal localID m0 →
      (∀ b ∈ batches, ∀ ev ∈ b, ∃ t, ev.key = memberKeyPfx ++ t) →
      NoLocal localID (batches.foldl (processKVEvents localID) m0) := by
  intro batches
  induction batches with
  | nil => exact fun m0 h _ => h
  | cons b rest ih =>
      intro m0 h0 hb
      have hstep : (b :: rest).foldl (processKVEvents localID) m0
          = rest.foldl (processKVEvents localID) (processKVEvents localID m0 b) := rfl
      rw [hstep]
      exact ih _
        (processKVEvents_no_local localID b m0 h0 (hb b (List.mem_cons_self _ _)))
        (fun x hx => hb x (List.mem_cons_of_mem _ hx))

theorem reachableMembers_no_local (localID : List Char)
    (listing : List (List Char × List Char)) (batches : List (List KVEvent))
    (hlist : ∀ p ∈ listing, ∃ t, p.1 = memberKeyPfx ++ t)
    (hbatches : ∀ b ∈ batches, ∀ ev ∈ b, ∃ t, ev.key = memberKeyPfx ++ t) :
    NoLocal localID (reachableMembers localID listing batches) := by
  have h0 : NoLocal localID (initialMembers localID listing) :=
    insertMembers_no_local localID _ []
      (getMembersList_no_local localID listing hlist) (fun p hp => by cases hp)
  rw [reachableMembers]
  exact foldl_processKVEvents_no_local localID batches _ h0 hbatches

/-- Claim C10: under keys carrying the watched `i://` prefix, every reachable
members map — the initial prefix fetch followed by any sequence of processed
watch batches — contains no entry for the local instance: `GetMember` of the
local instance id is not found and `GetMembers` holds only remote members. -/
theorem c10_members_never_local (localID : List Char)
    (listing : List (List Char × List Char)) (batches : List (List KVEvent))
    (hlist : ∀ p ∈ listing, ∃ t, p.1 = memberKeyPfx ++ t)
    (hbatches : ∀ b ∈ batches, ∀ ev ∈ b, ∃ t, ev.key = memberKeyPfx ++ t) :
    List.lookup localID (reachableMembers localID listing batches) = none ∧
    ∀ p ∈ reachableMembers localID listing batches, p.1 ≠ localID := by
  have h := reachableMembers_no_local localID listing batches hlist hbatches
  exact ⟨NoLocal_lookup_none localID _ h, h⟩

/-- Claim C10, witness: after the initial fetch and both watch batches, the
local instance `node-A` is absent from the members map and every entry is
remote. -/
theorem c10_members_never_local_witness :
    List.lookup ("node-A".toList)
        (reachableMembers ("node-A".toList) c10Listing c10Batches) = none ∧
    ∀ p ∈ reachableMembers ("node-A".toList) c10Listing c10Batches,
      p.1 ≠ "node-A".toList := by
  refine c10_members_never_local ("node-A".toList) c10Listing c10Batches ?_ ?_
  · intro p hp
    rcases List.mem_cons.1 hp with rfl | hp'
    · exact ⟨"node-A".toList, by decide⟩
    rcases List.mem_cons.1 hp' with rfl | hp''
    · exact ⟨"node-B".toList, by decide⟩
    cases hp''
  · intro b hb ev hev
    rcases List.mem_cons.1 hb with rfl | hb'
    · rcases List.mem_cons.1 hev with rfl | hev'
      · exact ⟨"node-C".toList, by decide⟩
      rcases List.mem_cons.1 hev' with rfl | hev''
      · exact ⟨"node-A".toList, by decide⟩
      cases hev''
    rcases List.mem_cons.1 hb' with rfl | hb''
    · rcases List.mem_cons.1 hev with rfl | hev'
      · exact ⟨"node-B".toList, by decide⟩
      cases hev'
    cases hb''

/-- The member-list model evaluated on the witness data: the put for
`node-C` decodes (address `10.0.0.3:4312`, version v1.0.0) and lands in the
map, and the delete removes `node-B` — validating the modelled decoding
against `decodeClusterMember`'s format. -/
theorem c10_model_validation :
    List.lookup ("node-C".toList)
        (reachableMembers ("node-A".toList) c10Listing c10Batches)
      = some ⟨"node-C".toList, "10.0.0.3".toList, 4312, ⟨1, 0, 0⟩⟩ ∧
    List.lookup ("node-B".toList)
        (reachableMembers ("node-A".toList) c10Listing c10Batches) = none := by
  decide
